import Mathlib

/-!
Shallow embedding of the bootstrap-time dependency-graph builder of the
repository (packages/core): the DependenciesScanner (scanner.ts), the
InstanceLoader (injector/instance-loader.ts) and the NestFactory wiring
(nest-factory.ts).  Collaborator classes that are not part of the given
sources (NestContainer, Module, GraphInspector, NoopGraphInspector) are
modelled from the specification where a claim depends on them; each such
definition carries a doc comment starting with the words Modelled from the
spec.  Identity tokens, injection tokens and method keys are natural
numbers; machine integers do not occur in the modelled fragment.

Modelling notes shared by the scanner definitions: dynamic modules,
promises of modules and forward references all normalize to a plain
declaration before identity hashing (scanner.ts lines 110 to 143), so the
declaration model below carries the normalized form only, and the dynamic
metadata merged from the container (getDynamicMetadataByToken) is the empty
sequence.  The four enhancer watermark keys (guards, interceptors,
exception filters, pipes) are modelled as one combined enhancer list whose
entries carry their subtype, and the parameter-level pipes of
reflectParamInjectables are part of the method-level list.
-/

namespace NestCore

/-! ## Asynchronous task structure of the InstanceLoader

The InstanceLoader (instance-loader.ts) drives instantiation through
synchronous forEach loops and through Promise.all over async closures.  The
control structure is embedded as a task tree: a synchronous loop or an
awaited sequence of two steps is a seq node (every event of the first
operand completes before any event of the second starts), and Promise.all
over a list of async closures is a par tree (no guaranteed ordering between
the branches).  A leaf records one call into the Injector. -/

/-- Kind of a unit inside a module: an entry of the providers catalog or an
entry of the injectables (enhancers) catalog. -/
inductive UnitKind where
  | provider
  | injectable
deriving DecidableEq, Repr

/-- One observable call of the InstanceLoader into the Injector: a
loadPrototype call (proto, Phase 1) or a loadProvider / loadInjectable call
(inst, Phase 2), tagged with the owning module token, the unit kind and the
unit token. -/
inductive LoadEvent where
  | proto (moduleToken : Nat) (kind : UnitKind) (unit : Nat)
  | inst (moduleToken : Nat) (kind : UnitKind) (unit : Nat)
deriving DecidableEq, Repr

/-- Module token of a load event. -/
def LoadEvent.moduleTok : LoadEvent → Nat
  | .proto m _ _ => m
  | .inst m _ _ => m

/-- Unit kind of a load event. -/
def LoadEvent.kindOf : LoadEvent → UnitKind
  | .proto _ k _ => k
  | .inst _ k _ => k

/-- True for Phase-1 (loadPrototype) events: these allocate an empty
placeholder, invoke no constructor and resolve no dependency. -/
def LoadEvent.isProto : LoadEvent → Bool
  | .proto _ _ _ => true
  | .inst _ _ _ => false

/-- Task tree describing the control structure of the loader: done is the
empty task, run a single Injector call, seq a b awaits a fully before
starting b, and par a b runs both branches under Promise.all with no
ordering guarantee between them. -/
inductive AsyncTask where
  | done
  | run (e : LoadEvent)
  | seq (a b : AsyncTask)
  | par (a b : AsyncTask)
deriving DecidableEq, Repr

/-- Promise.all over a list of tasks, folded into binary par nodes. -/
def parAll (ts : List AsyncTask) : AsyncTask :=
  ts.foldr AsyncTask.par AsyncTask.done

/-- A synchronous loop (or awaited sequence) over a list of tasks, folded
into binary seq nodes. -/
def seqAll (ts : List AsyncTask) : AsyncTask :=
  ts.foldr AsyncTask.seq AsyncTask.done

/-- All Injector calls occurring in a task. -/
def AsyncTask.events : AsyncTask → List LoadEvent
  | .done => []
  | .run e => [e]
  | .seq a b => a.events ++ b.events
  | .par a b => a.events ++ b.events

/-- Guaranteed ordering induced by the task structure: orderedBefore t e1 e2
holds when the structure of t forces every occurrence of e1 to complete
before e2 starts.  A seq node orders the whole left operand before the
whole right operand; a par node (Promise.all) induces no ordering across
its branches. -/
def orderedBefore (t : AsyncTask) (e1 e2 : LoadEvent) : Bool :=
  match t with
  | .done => false
  | .run _ => false
  | .seq a b =>
      orderedBefore a e1 e2 || orderedBefore b e1 e2 ||
        (a.events.contains e1 && b.events.contains e2)
  | .par a b => orderedBefore a e1 e2 || orderedBefore b e1 e2

/-- Catalog view of one Module entity as the InstanceLoader reads it: its
identity token, its provider wrapper tokens and its injectable wrapper
tokens. -/
structure LoaderModule where
  token : Nat
  providers : List Nat
  injectables : List Nat
deriving DecidableEq, Repr

/-- InstanceLoader.createPrototypesOfProviders: a synchronous forEach over
the providers catalog calling injector.loadPrototype on each wrapper. -/
def createPrototypesOfProviders (m : LoaderModule) : AsyncTask :=
  seqAll (m.providers.map fun w =>
    AsyncTask.run (LoadEvent.proto m.token UnitKind.provider w))

/-- InstanceLoader.createPrototypesOfInjectables: a synchronous forEach over
the injectables catalog calling injector.loadPrototype on each wrapper. -/
def createPrototypesOfInjectables (m : LoaderModule) : AsyncTask :=
  seqAll (m.injectables.map fun w =>
    AsyncTask.run (LoadEvent.proto m.token UnitKind.injectable w))

/-- InstanceLoader.createInstancesOfProviders: Promise.all over the
providers catalog, each branch awaiting injector.loadProvider. -/
def createInstancesOfProviders (m : LoaderModule) : AsyncTask :=
  parAll (m.providers.map fun w =>
    AsyncTask.run (LoadEvent.inst m.token UnitKind.provider w))

/-- InstanceLoader.createInstancesOfInjectables: Promise.all over the
injectables catalog, each branch awaiting injector.loadInjectable. -/
def createInstancesOfInjectables (m : LoaderModule) : AsyncTask :=
  parAll (m.injectables.map fun w =>
    AsyncTask.run (LoadEvent.inst m.token UnitKind.injectable w))

/-- InstanceLoader.createPrototypes: a synchronous forEach over the modules,
for each module running createPrototypesOfProviders and then
createPrototypesOfInjectables. -/
def createPrototypes (mods : List LoaderModule) : AsyncTask :=
  seqAll (mods.map fun m =>
    AsyncTask.seq (createPrototypesOfProviders m) (createPrototypesOfInjectables m))

/-- InstanceLoader.createInstances: Promise.all over the modules; inside one
module the branch awaits createInstancesOfProviders and only then awaits
createInstancesOfInjectables. -/
def createInstances (mods : List LoaderModule) : AsyncTask :=
  parAll (mods.map fun m =>
    AsyncTask.seq (createInstancesOfProviders m) (createInstancesOfInjectables m))

/-- InstanceLoader.createInstancesOfDependencies: runs the synchronous
createPrototypes pass to completion and then awaits createInstances. -/
def createInstancesOfDependencies (mods : List LoaderModule) : AsyncTask :=
  AsyncTask.seq (createPrototypes mods) (createInstances mods)

/-- Expected list of Phase-1 events: one loadPrototype call per provider and
per injectable of every module. -/
def protoEventsOf (mods : List LoaderModule) : List LoadEvent :=
  mods.flatMap fun m =>
    m.providers.map (fun w => LoadEvent.proto m.token UnitKind.provider w) ++
      m.injectables.map fun w => LoadEvent.proto m.token UnitKind.injectable w

/-! ## Prototype-chain model for reflectKeyMetadata -/

/-- One prototype in the prototype chain of a class, as consulted by
reflectKeyMetadata for a fixed method key: whether
Reflect.getOwnPropertyDescriptor(prototype, methodKey) yields a descriptor,
and the metadata value Reflect.getMetadata(key, descriptor.value) attached
to that descriptor's value for the fixed metadata key (none models a
missing or falsy metadata value). -/
structure ProtoLink where
  ownDescriptor : Bool
  meta : Option Nat
deriving DecidableEq, Repr

/-- DependenciesScanner.reflectKeyMetadata: the do-while walk over the
prototype chain (the list starts at the class's prototype and the walk
stops before Object.prototype).  A prototype without an own descriptor for
the method is skipped (the continue), and the first prototype owning a
descriptor decides the result: a pair of the method key and the metadata
when present, otherwise undefined, without consulting the rest of the
chain. -/
def reflectKeyMetadata (chain : List ProtoLink) (methodKey : Nat) :
    Option (Nat × Nat) :=
  match chain with
  | [] => none
  | p :: rest =>
      if p.ownDescriptor then
        match p.meta with
        | none => none
        | some m => some (methodKey, m)
      else reflectKeyMetadata rest methodKey

/-! ## Module declaration model (input of the DependenciesScanner) -/

/-- Subtype classification of an enhancer, from
ENHANCER_KEY_TO_SUBTYPE_MAP. -/
inductive EnhancerSubtype where
  | guard
  | interceptor
  | exceptionFilter
  | pipe
deriving DecidableEq, Repr

/-- An enhancer reference attached by a decorator: either a class (a
function, so isFunction is true) or an already constructed instance object
(isFunction is false), identified by a numeric token. -/
inductive EnhancerRef where
  | cls (id : Nat)
  | obj (id : Nat)
deriving DecidableEq, Repr

/-- Enhancer metadata attached at one method of a provider class: the
method key together with the metadata array found for that method (the
result view of the reflectKeyMetadata prototype walk). -/
structure MethodEnhancers where
  methodKey : Nat
  refs : List (EnhancerRef × EnhancerSubtype)
deriving DecidableEq, Repr

/-- One provider declaration of a module.  In this source insertProvider
registers custom providers and bare classes through the same
container.addProvider call (scanner.ts lines 496 to 515), so one numeric
injection token suffices; the declaration also carries the class-level and
method-level enhancer metadata consumed by reflectDynamicMetadata. -/
structure ProviderDecl where
  id : Nat
  classEnhancers : List (EnhancerRef × EnhancerSubtype)
  methodEnhancers : List MethodEnhancers
deriving DecidableEq, Repr

/-- A module declaration as traversed by scanForModules: undefined (an
imported position broken by a circular ES-module reference), another falsy
value, or a proper declaration carrying its identity, the three decorator
watermarks checked by insertModule, and its metadata arrays (imports,
providers, exports). -/
inductive ModuleDecl where
  | undef
  | falsy
  | mk (id : Nat) (injectableWatermark controllerWatermark catchWatermark : Bool)
      (imports : List ModuleDecl) (providers : List ProviderDecl)
      (exports : List Nat)

mutual

/-- Structural equality of declarations, standing in for the JavaScript
reference equality used by ctxRegistry.includes. -/
def ModuleDecl.beq : ModuleDecl → ModuleDecl → Bool
  | .undef, .undef => true
  | .falsy, .falsy => true
  | .mk i a b c imps provs exps, .mk i2 a2 b2 c2 imps2 provs2 exps2 =>
      i == i2 && a == a2 && b == b2 && c == c2 &&
        ModuleDecl.beqList imps imps2 && provs == provs2 && exps == exps2
  | _, _ => false

/-- Pointwise structural equality of declaration lists. -/
def ModuleDecl.beqList : List ModuleDecl → List ModuleDecl → Bool
  | [], [] => true
  | x :: xs, y :: ys => ModuleDecl.beq x y && ModuleDecl.beqList xs ys
  | _, _ => false

end

instance instBEqModuleDecl : BEq ModuleDecl := ⟨ModuleDecl.beq⟩

/-- Identity token of a declaration (the module compiler's token of the
spec collapses to the declaring identity because dynamic parameters are
already normalized away in this model). -/
def ModuleDecl.declId : ModuleDecl → Nat
  | .undef => 0
  | .falsy => 0
  | .mk i _ _ _ _ _ _ => i

/-- Reflect.getMetadata(INJECTABLE_WATERMARK, metatype) of
DependenciesScanner.isInjectable. -/
def isInjectableDecl : ModuleDecl → Bool
  | .mk _ w _ _ _ _ _ => w
  | _ => false

/-- Reflect.getMetadata(CONTROLLER_WATERMARK, metatype) of
DependenciesScanner.isController. -/
def isControllerDecl : ModuleDecl → Bool
  | .mk _ _ w _ _ _ _ => w
  | _ => false

/-- Reflect.getMetadata(CATCH_WATERMARK, metatype) of
DependenciesScanner.isExceptionFilter. -/
def isExceptionFilterDecl : ModuleDecl → Bool
  | .mk _ _ _ w _ _ _ => w
  | _ => false

/-- reflectMetadata(MODULE_METADATA.IMPORTS, metatype): the statically
declared import positions (empty for non-class values). -/
def importsMeta : ModuleDecl → List ModuleDecl
  | .mk _ _ _ _ imps _ _ => imps
  | _ => []

/-- reflectMetadata(MODULE_METADATA.PROVIDERS, metatype): the declared
providers (empty for non-class values). -/
def providersMeta : ModuleDecl → List ProviderDecl
  | .mk _ _ _ _ _ provs _ => provs
  | _ => []

/-- reflectMetadata(MODULE_METADATA.EXPORTS, metatype): the declared export
tokens (empty for non-class values). -/
def exportsMeta : ModuleDecl → List Nat
  | .mk _ _ _ _ _ _ exps => exps
  | _ => []

/-! ## Errors, registry and inspector -/

/-- Fatal errors of the scan phase: the four exception classes thrown by
the scanner, and the registry error of the spec for an unknown importing
module. -/
inductive ScanError where
  | undefinedModule (parent : ModuleDecl) (index : Nat) (scope : List ModuleDecl)
  | invalidModule (parent : ModuleDecl) (index : Nat) (scope : List ModuleDecl)
  | invalidClassModule (d : ModuleDecl) (scope : List ModuleDecl)
  | circularDependency (context : Nat)
  | unknownModule (token : Nat)

/-- Modelled from the spec: the Module entity of the registry (class Module
of injector/module.ts, outside the given sources): the identity token, the
original declaration kept for metadata lookups, the resolved import edges
in insertion order, and the provider, injectable and export catalogs. -/
structure ModuleEntity where
  token : Nat
  metatype : ModuleDecl
  imports : List Nat
  providersCat : List Nat
  injectablesCat : List Nat
  exportsCat : List Nat

/-- Modelled from the spec: the NestContainer module registry (class
NestContainer of injector/container.ts, outside the given sources), a map
from identity token to Module entity in insertion order. -/
structure NestContainer where
  modules : List ModuleEntity

/-- Tokens of the registered modules in insertion order. -/
def NestContainer.tokens (c : NestContainer) : List Nat :=
  c.modules.map ModuleEntity.token

/-- Modelled from the spec: NestContainer.addModule is idempotent by
identity token: re-adding an already known module returns the existing
entity and leaves the registry unchanged, otherwise a fresh entity with
empty catalogs is appended and returned. -/
def NestContainer.addModule (c : NestContainer) (d : ModuleDecl) :
    ModuleEntity × NestContainer :=
  match c.modules.find? (fun m => m.token == d.declId) with
  | some m => (m, c)
  | none =>
      let m : ModuleEntity := ⟨d.declId, d, [], [], [], []⟩
      (m, ⟨c.modules ++ [m]⟩)

/-- Point update of one registered module, leaving every other entity
untouched. -/
def NestContainer.updateModule (c : NestContainer) (token : Nat)
    (f : ModuleEntity → ModuleEntity) : NestContainer :=
  ⟨c.modules.map fun m => if m.token == token then f m else m⟩

/-- Modelled from the spec: NestContainer.addImport links one resolved
edge of imports onto the importing module and fails fatally when the importing
module is unknown; a related declaration that never registered is ignored
(it cannot occur after a successful discovery pass). -/
def NestContainer.addImport (c : NestContainer) (related : ModuleDecl)
    (token : Nat) : Except ScanError NestContainer :=
  if (c.modules.find? (fun m => m.token == token)).isSome then
    if (c.modules.find? (fun m => m.token == related.declId)).isSome then
      .ok (c.updateModule token fun m =>
        { m with imports := m.imports ++ [related.declId] })
    else .ok c
  else .error (.unknownModule token)

/-- Modelled from the spec: NestContainer.addProvider registers the provider
wrapper under its injection token in the owning module's providers catalog
(one wrapper per token). -/
def NestContainer.addProvider (c : NestContainer) (provider : Nat)
    (token : Nat) : NestContainer :=
  c.updateModule token fun m =>
    if m.providersCat.contains provider then m
    else { m with providersCat := m.providersCat ++ [provider] }

/-- Modelled from the spec: NestContainer.addInjectable registers the
enhancer class in the owning module's injectables catalog (reusing the
wrapper when the token is already present) and returns the wrapper. -/
def NestContainer.addInjectable (c : NestContainer) (injectable : Nat)
    (token : Nat) : Option Nat × NestContainer :=
  if (c.modules.find? (fun m => m.token == token)).isSome then
    (some injectable,
      c.updateModule token fun m =>
        if m.injectablesCat.contains injectable then m
        else { m with injectablesCat := m.injectablesCat ++ [injectable] })
  else (none, c)

/-- Modelled from the spec: NestContainer.addExportedProvider records the
exported token in the owning module's export set. -/
def NestContainer.addExportedProvider (c : NestContainer) (exported : Nat)
    (token : Nat) : NestContainer :=
  c.updateModule token fun m =>
    if m.exportsCat.contains exported then m
    else { m with exportsCat := m.exportsCat ++ [exported] }

/-- Record pushed by GraphInspector.insertEnhancerMetadataCache, as built at
the two call sites inside DependenciesScanner.insertInjectable. -/
structure EnhancerMetadataCacheEntry where
  moduleToken : Nat
  classRef : Nat
  enhancerInstanceWrapper : Option Nat
  enhancerRef : Option Nat
  targetNodeId : Option Nat
  subtype : EnhancerSubtype
  methodKey : Option Nat
deriving DecidableEq, Repr

/-- Modelled from the spec: a graph inspector is a passive observer whose
insertEnhancerMetadataCache call transforms only the inspector's own record
log. -/
def GraphInspectorT : Type :=
  EnhancerMetadataCacheEntry → List EnhancerMetadataCacheEntry →
    List EnhancerMetadataCacheEntry

/-- Modelled from the spec: the real GraphInspector appends each record to
its enhancer metadata cache. -/
def graphInspectorReal : GraphInspectorT := fun e log => log ++ [e]

/-- Modelled from the spec: NoopGraphInspector ignores every call. -/
def noopGraphInspector : GraphInspectorT := fun _ log => log

/-- NestFactoryStatic.createGraphInspector: the real inspector when the
snapshot option is set, the no-op inspector otherwise. -/
def createGraphInspector (snapshot : Bool) : GraphInspectorT :=
  if snapshot then graphInspectorReal else noopGraphInspector

/-- Mutable state threaded through the scanner: the container, the shared
ctxRegistry of already traversed declarations, and the inspector's record
log. -/
structure ScanState where
  container : NestContainer
  ctxRegistry : List ModuleDecl
  log : List EnhancerMetadataCacheEntry

/-! ## Scanner, pass 1: scanForModules -/

/-- DependenciesScanner.insertModule: rejects a declaration annotated as
injectable, controller or exception filter with an
InvalidClassModuleException carrying the traversal path, and otherwise
delegates to container.addModule (forward references arrive already
unwrapped in this model). -/
def insertModule (moduleDefinition : ModuleDecl) (scope : List ModuleDecl)
    (c : NestContainer) : Except ScanError (Option ModuleEntity × NestContainer) :=
  if isInjectableDecl moduleDefinition || isControllerDecl moduleDefinition ||
      isExceptionFilterDecl moduleDefinition then
    .error (.invalidClassModule moduleDefinition scope)
  else
    let r := c.addModule moduleDefinition
    .ok (some r.1, r.2)

mutual

/-- DependenciesScanner.scanForModules: inserts the definition into the
container, pushes it onto the shared ctxRegistry and walks its import
positions depth-first, returning the module instance followed by the
modules registered below it. -/
def scanForModules (moduleDefinition : ModuleDecl) (scope : List ModuleDecl)
    (s : ScanState) : Except ScanError (List ModuleEntity × ScanState) :=
  match insertModule moduleDefinition scope s.container with
  | .error e => .error e
  | .ok (moduleInstance, c1) =>
      let s1 : ScanState := ⟨c1, s.ctxRegistry ++ [moduleDefinition], s.log⟩
      match scanForModulesImportLoop moduleDefinition
          (importsMeta moduleDefinition) 0 scope s1 with
      | .error e => .error e
      | .ok (registeredModuleRefs, s2) =>
          match moduleInstance with
          | none => .ok (registeredModuleRefs, s2)
          | some inst => .ok (inst :: registeredModuleRefs, s2)
termination_by sizeOf moduleDefinition + 1
decreasing_by
  cases moduleDefinition <;> simp [importsMeta] <;> omega

/-- For-loop of scanForModules over the import positions (scanner.ts lines
148 to 173): an undefined position throws UndefinedModuleException and any
other falsy position throws InvalidModuleException, both carrying the
position index and the traversal path, and both checks precede the
ctxRegistry skip of already traversed declarations. -/
def scanForModulesImportLoop (moduleDefinition : ModuleDecl)
    (entries : List ModuleDecl) (index : Nat) (scope : List ModuleDecl)
    (s : ScanState) : Except ScanError (List ModuleEntity × ScanState) :=
  match entries with
  | [] => .ok ([], s)
  | innerModule :: rest =>
      match innerModule with
      | .undef => .error (.undefinedModule moduleDefinition index scope)
      | .falsy => .error (.invalidModule moduleDefinition index scope)
      | .mk i a b c imps provs exps =>
          if s.ctxRegistry.contains (ModuleDecl.mk i a b c imps provs exps) then
            scanForModulesImportLoop moduleDefinition rest (index + 1) scope s
          else
            match scanForModules (ModuleDecl.mk i a b c imps provs exps)
                (scope ++ [moduleDefinition]) s with
            | .error e => .error e
            | .ok (moduleRefs, s2) =>
                match scanForModulesImportLoop moduleDefinition rest
                    (index + 1) scope s2 with
                | .error e => .error e
                | .ok (more, s3) => .ok (moduleRefs ++ more, s3)
termination_by sizeOf entries
decreasing_by
  all_goals
    first
      | (simp <;> omega)
      | (have h1 : 1 ≤ sizeOf rest := by cases rest <;> simp <;> omega
         simp <;> omega)

end

/-- Statement helper describing how the import loop continues after a
prefix of positions succeeded: the registered refs of the prefix are
prepended to whatever the continuation returns, and errors propagate. -/
def loopSeq (r1 : Except ScanError (List ModuleEntity × ScanState))
    (k : ScanState → Except ScanError (List ModuleEntity × ScanState)) :
    Except ScanError (List ModuleEntity × ScanState) :=
  match r1 with
  | .error e => .error e
  | .ok (refs, s2) =>
      match k s2 with
      | .error e => .error e
      | .ok (more, s3) => .ok (refs ++ more, s3)

/-! ## Scanner, pass 2: scanModulesForDependencies -/

/-- DependenciesScanner.insertProvider: in this source the custom-provider
branch and the bare-class branch both register the declaration through
container.addProvider (the global-enhancer storage is commented out). -/
def insertProvider (provider : ProviderDecl) (token : Nat)
    (c : NestContainer) : NestContainer :=
  c.addProvider provider.id token

/-- DependenciesScanner.insertInjectable: a function (class) enhancer is
registered through container.addInjectable and recorded in the graph
inspector together with its wrapper and target node; a non-function
enhancer (an already constructed object) is only recorded in the inspector
and the container is left untouched. -/
def insertInjectable (insp : GraphInspectorT) (injectable : EnhancerRef)
    (token : Nat) (host : Nat) (subtype : EnhancerSubtype)
    (methodKey : Option Nat) (c : NestContainer)
    (log : List EnhancerMetadataCacheEntry) :
    Option Nat × NestContainer × List EnhancerMetadataCacheEntry :=
  match injectable with
  | .cls i =>
      let r := c.addInjectable i token
      (r.1, r.2, insp ⟨token, host, r.1, none, r.1, subtype, methodKey⟩ log)
  | .obj i =>
      (none, c, insp ⟨token, host, none, some i, none, subtype, methodKey⟩ log)

/-- Iteration of DependenciesScanner.reflectInjectables over one enhancer
metadata list, calling insertInjectable for every reference. -/
def insertInjectableList (insp : GraphInspectorT)
    (entries : List (EnhancerRef × EnhancerSubtype)) (token : Nat)
    (host : Nat) (methodKey : Option Nat) (c : NestContainer)
    (log : List EnhancerMetadataCacheEntry) :
    NestContainer × List EnhancerMetadataCacheEntry :=
  match entries with
  | [] => (c, log)
  | (e, st) :: rest =>
      let r := insertInjectable insp e token host st methodKey c log
      insertInjectableList insp rest token host methodKey r.2.1 r.2.2

/-- Method-level part of DependenciesScanner.reflectInjectables: every
method with metadata contributes its references with its method key. -/
def insertMethodInjectableList (insp : GraphInspectorT)
    (entries : List MethodEnhancers) (token : Nat) (host : Nat)
    (c : NestContainer) (log : List EnhancerMetadataCacheEntry) :
    NestContainer × List EnhancerMetadataCacheEntry :=
  match entries with
  | [] => (c, log)
  | me :: rest =>
      let r := insertInjectableList insp me.refs token host
        (some me.methodKey) c log
      insertMethodInjectableList insp rest token host r.1 r.2

/-- DependenciesScanner.reflectDynamicMetadata: registers the class-level
enhancer metadata and then the method-level enhancer metadata of one
provider class. -/
def reflectDynamicMetadata (insp : GraphInspectorT) (cls : ProviderDecl)
    (token : Nat) (c : NestContainer)
    (log : List EnhancerMetadataCacheEntry) :
    NestContainer × List EnhancerMetadataCacheEntry :=
  let r := insertInjectableList insp cls.classEnhancers token cls.id none c log
  insertMethodInjectableList insp cls.methodEnhancers token cls.id r.1 r.2

/-- forEach of DependenciesScanner.reflectProviders: insertProvider followed
by reflectDynamicMetadata for every declared provider. -/
def reflectProvidersLoop (insp : GraphInspectorT)
    (providers : List ProviderDecl) (token : Nat) (c : NestContainer)
    (log : List EnhancerMetadataCacheEntry) :
    NestContainer × List EnhancerMetadataCacheEntry :=
  match providers with
  | [] => (c, log)
  | p :: rest =>
      let c1 := insertProvider p token c
      let r := reflectDynamicMetadata insp p token c1 log
      reflectProvidersLoop insp rest token r.1 r.2

/-- DependenciesScanner.reflectProviders: merges the static provider
metadata (the dynamic metadata of the token is empty in this model) and
registers every provider. -/
def reflectProviders (insp : GraphInspectorT) (module : ModuleDecl)
    (token : Nat) (c : NestContainer)
    (log : List EnhancerMetadataCacheEntry) :
    NestContainer × List EnhancerMetadataCacheEntry :=
  reflectProvidersLoop insp (providersMeta module) token c log

/-- DependenciesScanner.insertImport: an undefined related declaration is a
declaration-time CircularDependencyException naming the importing context;
otherwise the edge is handed to container.addImport. -/
def insertImport (related : ModuleDecl) (token : Nat) (context : Nat)
    (c : NestContainer) : Except ScanError NestContainer :=
  match related with
  | .undef => .error (.circularDependency context)
  | _ => c.addImport related token

/-- Loop of DependenciesScanner.reflectImports over the declared import
positions. -/
def reflectImportsLoop (entries : List ModuleDecl) (token : Nat)
    (context : Nat) (c : NestContainer) : Except ScanError NestContainer :=
  match entries with
  | [] => .ok c
  | related :: rest =>
      match insertImport related token context c with
      | .error e => .error e
      | .ok c1 => reflectImportsLoop rest token context c1

/-- DependenciesScanner.reflectImports: adds one resolved import edge per
declared import position (the dynamic metadata of the token is empty in
this model). -/
def reflectImports (module : ModuleDecl) (token : Nat) (context : Nat)
    (c : NestContainer) : Except ScanError NestContainer :=
  reflectImportsLoop (importsMeta module) token context c

/-- DependenciesScanner.insertExportedProvider delegating to
container.addExportedProvider. -/
def insertExportedProvider (exported : Nat) (token : Nat)
    (c : NestContainer) : NestContainer :=
  c.addExportedProvider exported token

/-- forEach of DependenciesScanner.reflectExports over the declared export
tokens. -/
def reflectExportsLoop (entries : List Nat) (token : Nat)
    (c : NestContainer) : NestContainer :=
  match entries with
  | [] => c
  | e :: rest => reflectExportsLoop rest token (insertExportedProvider e token c)

/-- DependenciesScanner.reflectExports: registers every declared export
token of the module. -/
def reflectExports (module : ModuleDecl) (token : Nat) (c : NestContainer) :
    NestContainer :=
  reflectExportsLoop (exportsMeta module) token c

/-- Loop of DependenciesScanner.scanModulesForDependencies over the
registered modules: reflectImports, reflectProviders and reflectExports per
module (reflectControllers is commented out in the source). -/
def scanModulesForDependenciesLoop (insp : GraphInspectorT)
    (entries : List (Nat × ModuleDecl)) (c : NestContainer)
    (log : List EnhancerMetadataCacheEntry) :
    Except ScanError (NestContainer × List EnhancerMetadataCacheEntry) :=
  match entries with
  | [] => .ok (c, log)
  | (token, metatype) :: rest =>
      match reflectImports metatype token metatype.declId c with
      | .error e => .error e
      | .ok c1 =>
          let r := reflectProviders insp metatype token c1 log
          let c2 := reflectExports metatype token r.1
          scanModulesForDependenciesLoop insp rest c2 r.2

/-- DependenciesScanner.scanModulesForDependencies over the snapshot of the
registered modules. -/
def scanModulesForDependencies (insp : GraphInspectorT) (s : ScanState) :
    Except ScanError ScanState :=
  match scanModulesForDependenciesLoop insp
      (s.container.modules.map fun m => (m.token, m.metatype))
      s.container s.log with
  | .error e => .error e
  | .ok (c, log) => .ok ⟨c, s.ctxRegistry, log⟩

/-! ## Distance calculation -/

/-- State mutated by calculateModulesDistance: the visited set
modulesStack, the distance field of every module (none when never
assigned), and the chronological trace of every distance assignment. -/
structure DistState where
  modulesStack : List Nat
  dist : Nat → Option Nat
  trace : List (Nat × Nat)

/-- State before the walk: nothing visited, no distance assigned. -/
def emptyDistState : DistState := ⟨[], fun _ => none, []⟩

/-- The statement importedModuleRef.distance = distance inside the forEach
of calculateDistance: it unconditionally overwrites the import's distance
(before the recursive call can be stopped by the visited check) and is
recorded in the assignment trace. -/
def assignDistance (s : DistState) (t d : Nat) : DistState :=
  { modulesStack := s.modulesStack,
    dist := fun x => if x = t then some d else s.dist x,
    trace := s.trace ++ [(t, d)] }

/-- Inner recursive closure calculateDistance of
DependenciesScanner.calculateModulesDistance: a module already on
modulesStack returns immediately, otherwise it is pushed and each import
gets the current distance assigned and is visited with distance one
greater.  The fuel bounds the recursion depth; the source recursion
terminates because every level pushes a previously absent module, so any
fuel above the number of reachable modules is enough. -/
def calculateDistance (imports : Nat → List Nat) :
    Nat → Nat → Nat → DistState → DistState
  | 0, _, _, s => s
  | fuel + 1, moduleRef, distance, s =>
      if s.modulesStack.contains moduleRef then s
      else
        let s1 : DistState :=
          { modulesStack := s.modulesStack ++ [moduleRef],
            dist := s.dist, trace := s.trace }
        (imports moduleRef).foldl
          (fun acc imp =>
            calculateDistance imports fuel imp (distance + 1)
              (assignDistance acc imp distance))
          s1

/-- Import edges of a registered module, read from the container. -/
def containerImports (c : NestContainer) (t : Nat) : List Nat :=
  match c.modules.find? (fun m => m.token == t) with
  | some m => m.imports
  | none => []

/-- DependenciesScanner.calculateModulesDistance: the first generator value
(the internal core module) is skipped, the next registered module is the
root, and the walk starts there with distance 1; with fewer than two
registered modules the undefined root returns immediately. -/
def calculateModulesDistance (c : NestContainer) : DistState :=
  match c.modules with
  | _core :: root :: _ =>
      calculateDistance (containerImports c) (c.modules.length + 1)
        root.token 1 emptyDistState
  | _ => emptyDistState

/-- Value of the chronologically last assignment to module t recorded in an
assignment trace. -/
def lastWrite (trace : List (Nat × Nat)) (t : Nat) : Option Nat :=
  (trace.filterMap fun p => if p.1 = t then some p.2 else none).getLast?

/-- Value of the chronologically first assignment to module t recorded in
an assignment trace. -/
def firstWrite (trace : List (Nat × Nat)) (t : Nat) : Option Nat :=
  (trace.filterMap fun p => if p.1 = t then some p.2 else none).head?

/-- Invariant tying the distance store to the assignment trace: every
module's distance is the value of its last recorded assignment. -/
def DistConsistent (s : DistState) : Prop :=
  ∀ t, s.dist t = lastWrite s.trace t

/-! ## Core module, scan entry point and factory pipeline -/

/-- Declaration of the dependency-free internal core module produced by
InternalCoreModuleFactory (its provider details live outside the given
sources); registered first, it occupies the first registry position. -/
def internalCoreModuleDecl : ModuleDecl := .mk 0 false false false [] [] []

/-- DependenciesScanner.registerCoreModule: scans the internal core module
before anything else (the stored core module reference is not part of the
modelled state). -/
def registerCoreModule (s : ScanState) : Except ScanError ScanState :=
  match scanForModules internalCoreModuleDecl [] s with
  | .error e => .error e
  | .ok (_, s1) => .ok s1

/-- DependenciesScanner.scan: core module registration, depth-firstModules
discovery from the root declaration, dependency reflection and distance
calculation.  bindGlobalScope only changes visibility for resolution and no
module is flagged global in the model, so it leaves the modelled state
unchanged. -/
def scan (insp : GraphInspectorT) (module : ModuleDecl) :
    Except ScanError (ScanState × DistState) :=
  match registerCoreModule ⟨⟨[]⟩, [], []⟩ with
  | .error e => .error e
  | .ok s1 =>
      match scanForModules module [] s1 with
      | .error e => .error e
      | .ok (_, s2) =>
          match scanModulesForDependencies insp s2 with
          | .error e => .error e
          | .ok s3 => .ok (s3, calculateModulesDistance s3.container)

/-- Modules of the finished registry as the InstanceLoader reads them. -/
def loaderModulesOf (c : NestContainer) : List LoaderModule :=
  c.modules.map fun m => ⟨m.token, m.providersCat, m.injectablesCat⟩

/-- Observable outcome of a bootstrap apart from the inspector log: the
module registry, the computed distances and the instantiation task handed
to the Injector. -/
structure BootOutcome where
  container : NestContainer
  dist : DistState
  task : AsyncTask

/-- NestFactoryStatic.createApplicationContext / initialize: chooses the
inspector from the snapshot option, scans from the root declaration and
drives the InstanceLoader over the finished registry; the inspector log is
returned next to the outcome. -/
def bootstrap (module : ModuleDecl) (snapshot : Bool) :
    Except ScanError (BootOutcome × List EnhancerMetadataCacheEntry) :=
  match scan (createGraphInspector snapshot) module with
  | .error e => .error e
  | .ok (s, d) =>
      .ok (⟨s.container, d,
        createInstancesOfDependencies (loaderModulesOf s.container)⟩, s.log)

/-! ## Instrumented distance walk (ghost visit log)

The following variant of calculateDistance is used only in statements and
proofs about arbitrary import graphs: it has the same control flow and
produces the same modulesStack, dist and trace components (theorem
forget_calculateDistanceV below), and additionally records every visit it
enters together with the distance parameter of that visit. -/

/-- State of the instrumented walk: the three components of DistState plus
the ghost log of entered visits, each paired with its distance parameter. -/
structure DistStateV where
  modulesStack : List Nat
  dist : Nat → Option Nat
  trace : List (Nat × Nat)
  visits : List (Nat × Nat)

/-- Distance assignment of the instrumented walk: identical to
assignDistance on the shared components, visit log untouched. -/
def assignDistanceV (s : DistStateV) (t d : Nat) : DistStateV :=
  { modulesStack := s.modulesStack,
    dist := fun x => if x = t then some d else s.dist x,
    trace := s.trace ++ [(t, d)],
    visits := s.visits }

/-- Instrumented calculateDistance: same recursion as calculateDistance,
with the entered visit appended to the ghost log next to the stack push. -/
def calculateDistanceV (imports : Nat → List Nat) :
    Nat → Nat → Nat → DistStateV → DistStateV
  | 0, _, _, s => s
  | fuel + 1, moduleRef, distance, s =>
      if s.modulesStack.contains moduleRef then s
      else
        let s1 : DistStateV :=
          { modulesStack := s.modulesStack ++ [moduleRef],
            dist := s.dist, trace := s.trace,
            visits := s.visits ++ [(moduleRef, distance)] }
        (imports moduleRef).foldl
          (fun acc imp =>
            calculateDistanceV imports fuel imp (distance + 1)
              (assignDistanceV acc imp distance))
          s1

/-- Projection dropping the ghost visit log. -/
def DistStateV.forget (s : DistStateV) : DistState :=
  ⟨s.modulesStack, s.dist, s.trace⟩

/-- Initial state of the instrumented walk. -/
def emptyDistStateV : DistStateV := ⟨[], fun _ => none, [], []⟩

/-- Statement helper: the second state extends the first by appending new
visits (whose tokens are exactly the new stack entries) and new trace
writes. -/
def StateExtends (s1 s2 : DistStateV) : Prop :=
  ∃ dv dt, s2.visits = s1.visits ++ dv ∧
    s2.modulesStack = s1.modulesStack ++ dv.map Prod.fst ∧
    s2.trace = s1.trace ++ dt

/-- Statement helper: the stack is exactly the token list of the visit log,
without repetition (each module is visited at most once). -/
def GoodState (s : DistStateV) : Prop :=
  s.modulesStack = s.visits.map Prod.fst ∧ (s.visits.map Prod.fst).Nodup

/-! ## Concrete inputs used by counterexamples and witnesses -/

/-- Registry whose import graph is not a tree (module 3 is imported by both
the root 1 and module 2), while modules 2 and 4 are each imported at
exactly one position: the chain 1, 2, 4. -/
def c7ChainExampleContainer : NestContainer :=
  ⟨[⟨0, internalCoreModuleDecl, [], [], [], []⟩,
    ⟨1, ModuleDecl.mk 1 false false false [] [] [], [2, 3], [], [], []⟩,
    ⟨2, ModuleDecl.mk 2 false false false [] [] [], [3, 4], [], [], []⟩,
    ⟨3, ModuleDecl.mk 3 false false false [] [] [], [], [], [], []⟩,
    ⟨4, ModuleDecl.mk 4 false false false [] [] [], [], [], [], []⟩]⟩

/-- Registry with core module 0, root 1 importing modules 2 and 3 in this
order, and module 2 importing module 3: module 3 is reachable through the
two paths 1,2,3 (depth 2, visited first) and 1,3 (depth 1, visited last). -/
def c2ExampleContainer : NestContainer :=
  ⟨[⟨0, internalCoreModuleDecl, [], [], [], []⟩,
    ⟨1, .mk 1 false false false [] [] [], [2, 3], [], [], []⟩,
    ⟨2, .mk 2 false false false [] [] [], [3], [], [], []⟩,
    ⟨3, .mk 3 false false false [] [] [], [], [], [], []⟩]⟩

/-- Registry with core module 0, root 1 importing modules 3 and 2 in this
order, and module 2 importing module 3: module 3 is a direct import of the
root but is overwritten later through the deeper path 1,2,3. -/
def c7ExampleContainer : NestContainer :=
  ⟨[⟨0, internalCoreModuleDecl, [], [], [], []⟩,
    ⟨1, .mk 1 false false false [] [] [], [3, 2], [], [], []⟩,
    ⟨2, .mk 2 false false false [] [] [], [3], [], [], []⟩,
    ⟨3, .mk 3 false false false [] [] [], [], [], [], []⟩]⟩

/-! # Theorems -/

/-! ## Helper lemmas about task events and ordering -/

theorem contains_iff_mem {α : Type} [BEq α] [LawfulBEq α] (l : List α) (a : α) :
    l.contains a = true ↔ a ∈ l := by
  simp [List.contains, List.elem_iff]

theorem events_seqAll (ts : List AsyncTask) :
    (seqAll ts).events = ts.flatMap AsyncTask.events := by
  induction ts with
  | nil => rfl
  | cons t ts ih => simp [seqAll, AsyncTask.events] at ih ⊢; simpa using ih

theorem events_parAll (ts : List AsyncTask) :
    (parAll ts).events = ts.flatMap AsyncTask.events := by
  induction ts with
  | nil => rfl
  | cons t ts ih => simp [parAll, AsyncTask.events] at ih ⊢; simpa using ih

theorem events_seqAll_run (l : List Nat) (f : Nat → LoadEvent) :
    (seqAll (l.map fun w => AsyncTask.run (f w))).events = l.map f := by
  rw [events_seqAll, List.flatMap_map]
  induction l with
  | nil => rfl
  | cons x xs ih =>
      simp only [List.flatMap_cons, List.map_cons, AsyncTask.events] at ih ⊢
      rw [ih]; rfl

theorem events_parAll_run (l : List Nat) (f : Nat → LoadEvent) :
    (parAll (l.map fun w => AsyncTask.run (f w))).events = l.map f := by
  rw [events_parAll, List.flatMap_map]
  induction l with
  | nil => rfl
  | cons x xs ih =>
      simp only [List.flatMap_cons, List.map_cons, AsyncTask.events] at ih ⊢
      rw [ih]; rfl

theorem orderedBefore_parAll_run (l : List Nat) (f : Nat → LoadEvent)
    (e1 e2 : LoadEvent) :
    orderedBefore (parAll (l.map fun w => AsyncTask.run (f w))) e1 e2 = false := by
  induction l with
  | nil => rfl
  | cons x xs ih => simp [parAll, orderedBefore] at ih ⊢; exact ih

theorem mem_events_createInstancesOfProviders (m : LoaderModule)
    (e : LoadEvent) (h : e ∈ (createInstancesOfProviders m).events) :
    e.moduleTok = m.token ∧ e.kindOf = UnitKind.provider := by
  rw [createInstancesOfProviders, events_parAll_run] at h
  obtain ⟨w, _, rfl⟩ := List.mem_map.mp h
  exact ⟨rfl, rfl⟩

theorem mem_events_createInstancesOfInjectables (m : LoaderModule)
    (e : LoadEvent) (h : e ∈ (createInstancesOfInjectables m).events) :
    e.moduleTok = m.token ∧ e.kindOf = UnitKind.injectable := by
  rw [createInstancesOfInjectables, events_parAll_run] at h
  obtain ⟨w, _, rfl⟩ := List.mem_map.mp h
  exact ⟨rfl, rfl⟩

theorem orderedBefore_moduleTask (m : LoaderModule) (e1 e2 : LoadEvent) :
    orderedBefore
      (AsyncTask.seq (createInstancesOfProviders m) (createInstancesOfInjectables m))
      e1 e2 = true ↔
    (e1 ∈ (createInstancesOfProviders m).events ∧
      e2 ∈ (createInstancesOfInjectables m).events) := by
  simp only [orderedBefore, createInstancesOfProviders, createInstancesOfInjectables,
    orderedBefore_parAll_run, Bool.false_or, Bool.and_eq_true, contains_iff_mem]

theorem orderedBefore_parAll_cons (t : AsyncTask) (ts : List AsyncTask)
    (e1 e2 : LoadEvent) :
    orderedBefore (parAll (t :: ts)) e1 e2 =
      (orderedBefore t e1 e2 || orderedBefore (parAll ts) e1 e2) := rfl

theorem orderedBefore_createInstances_iff (mods : List LoaderModule)
    (e1 e2 : LoadEvent) :
    orderedBefore (createInstances mods) e1 e2 = true ↔
    ∃ m ∈ mods, e1 ∈ (createInstancesOfProviders m).events ∧
      e2 ∈ (createInstancesOfInjectables m).events := by
  rw [createInstances]
  induction mods with
  | nil => simp [parAll, orderedBefore]
  | cons m ms ih =>
      rw [List.map_cons, orderedBefore_parAll_cons, Bool.or_eq_true,
        orderedBefore_moduleTask, ih]
      constructor
      · rintro (h | ⟨x, hx, hh⟩)
        · exact ⟨m, List.mem_cons_self m ms, h⟩
        · exact ⟨x, List.mem_cons_of_mem m hx, hh⟩
      · rintro ⟨x, hx, hh⟩
        rcases List.mem_cons.mp hx with rfl | hx
        · exact Or.inl hh
        · exact Or.inr ⟨x, hx, hh⟩

/-! ## Claims C1 and C4 (two-phase instantiation ordering) -/

/-- C1 counterexample: the claim states that within one module no unit is
ordered before another except through dependency edges.  In the module with
token 5, provider 50 and injectable 60 (no dependency between them is
declared anywhere in the model), createInstances nevertheless forces the
provider resolution to complete before the injectable resolution starts,
because the per-module branch awaits createInstancesOfProviders before
createInstancesOfInjectables. -/
theorem c1_units_unordered_counterexample :
    orderedBefore (createInstances [⟨5, [50], [60]⟩])
      (LoadEvent.inst 5 UnitKind.provider 50)
      (LoadEvent.inst 5 UnitKind.injectable 60) = true := by
  decide

/-- C1 (amended): in Phase 2, instantiation is concurrent across modules and
concurrent within each catalog, and the only structural ordering is that all
providers of a module complete before any injectable of the same module
starts.  Stated as: (1) events of distinct module tokens are never ordered;
(2) two events of the same unit kind are never ordered; (3) every provider
of a module is ordered before every injectable of the same module. -/
theorem c1_phase2_ordering_amended :
    (∀ (mods : List LoaderModule) (e1 e2 : LoadEvent),
      e1.moduleTok ≠ e2.moduleTok →
        orderedBefore (createInstances mods) e1 e2 = false) ∧
    (∀ (mods : List LoaderModule) (e1 e2 : LoadEvent),
      e1.kindOf = e2.kindOf →
        orderedBefore (createInstances mods) e1 e2 = false) ∧
    (∀ (mods : List LoaderModule) (m : LoaderModule) (p i : Nat),
      m ∈ mods → p ∈ m.providers → i ∈ m.injectables →
        orderedBefore (createInstances mods)
          (LoadEvent.inst m.token UnitKind.provider p)
          (LoadEvent.inst m.token UnitKind.injectable i) = true) := by
  refine ⟨?_, ?_, ?_⟩
  · intro mods e1 e2 hne
    by_contra h
    rw [Bool.not_eq_false, orderedBefore_createInstances_iff] at h
    obtain ⟨m, _, h1, h2⟩ := h
    have m1 := (mem_events_createInstancesOfProviders m e1 h1).1
    have m2 := (mem_events_createInstancesOfInjectables m e2 h2).1
    exact hne (m1.trans m2.symm)
  · intro mods e1 e2 heq
    by_contra h
    rw [Bool.not_eq_false, orderedBefore_createInstances_iff] at h
    obtain ⟨m, _, h1, h2⟩ := h
    have k1 := (mem_events_createInstancesOfProviders m e1 h1).2
    have k2 := (mem_events_createInstancesOfInjectables m e2 h2).2
    rw [heq, k2] at k1
    exact UnitKind.noConfusion k1
  · intro mods m p i hm hp hi
    rw [orderedBefore_createInstances_iff]
    refine ⟨m, hm, ?_, ?_⟩
    · rw [createInstancesOfProviders, events_parAll_run]
      exact List.mem_map.mpr ⟨p, hp, rfl⟩
    · rw [createInstancesOfInjectables, events_parAll_run]
      exact List.mem_map.mpr ⟨i, hi, rfl⟩

/-- C1 amended claim, applied at a concrete module list: modules 7 and 8,
module 7 holding providers 70 and 71 and injectable 75. -/
theorem c1_phase2_ordering_amended_witness :
    orderedBefore (createInstances [⟨7, [70, 71], [75]⟩, ⟨8, [80], []⟩])
      (LoadEvent.inst 7 UnitKind.provider 70)
      (LoadEvent.inst 8 UnitKind.provider 80) = false ∧
    orderedBefore (createInstances [⟨7, [70, 71], [75]⟩, ⟨8, [80], []⟩])
      (LoadEvent.inst 7 UnitKind.provider 70)
      (LoadEvent.inst 7 UnitKind.provider 71) = false ∧
    orderedBefore (createInstances [⟨7, [70, 71], [75]⟩, ⟨8, [80], []⟩])
      (LoadEvent.inst 7 UnitKind.provider 70)
      (LoadEvent.inst 7 UnitKind.injectable 75) = true :=
  ⟨c1_phase2_ordering_amended.1 [⟨7, [70, 71], [75]⟩, ⟨8, [80], []⟩]
      (LoadEvent.inst 7 UnitKind.provider 70)
      (LoadEvent.inst 8 UnitKind.provider 80) (by decide),
    c1_phase2_ordering_amended.2.1 [⟨7, [70, 71], [75]⟩, ⟨8, [80], []⟩]
      (LoadEvent.inst 7 UnitKind.provider 70)
      (LoadEvent.inst 7 UnitKind.provider 71) (by decide),
    c1_phase2_ordering_amended.2.2 [⟨7, [70, 71], [75]⟩, ⟨8, [80], []⟩]
      ⟨7, [70, 71], [75]⟩ 70 75 (by decide) (by decide) (by decide)⟩

/-- C4: createInstancesOfDependencies completes Phase 1 in full before any
Phase 2 instantiation begins.  Stated as: (1) Phase 1 issues exactly one
loadPrototype call per provider and per injectable of every module; (2)
every Phase-1 event is a prototype allocation (no constructor invocation,
no dependency resolution); (3) every Phase-1 event is ordered before every
Phase-2 event in the combined task. -/
theorem c4_phase1_completes_before_phase2 (mods : List LoaderModule) :
    (createPrototypes mods).events = protoEventsOf mods ∧
    (∀ e ∈ (createPrototypes mods).events, e.isProto = true) ∧
    (∀ e1 e2, e1 ∈ (createPrototypes mods).events →
      e2 ∈ (createInstances mods).events →
        orderedBefore (createInstancesOfDependencies mods) e1 e2 = true) := by
  have hev : (createPrototypes mods).events = protoEventsOf mods := by
    rw [createPrototypes, events_seqAll, protoEventsOf, List.flatMap_map]
    refine List.flatMap_congr fun m _ => ?_
    show (createPrototypesOfProviders m).events ++
        (createPrototypesOfInjectables m).events = _
    rw [createPrototypesOfProviders, createPrototypesOfInjectables,
      events_seqAll_run, events_seqAll_run]
  refine ⟨hev, ?_, ?_⟩
  · intro e he
    rw [hev] at he
    rw [protoEventsOf, List.mem_flatMap] at he
    obtain ⟨m, _, hm⟩ := he
    rcases List.mem_append.mp hm with h | h <;>
      · obtain ⟨w, _, rfl⟩ := List.mem_map.mp h
        rfl
  · intro e1 e2 h1 h2
    show (orderedBefore (createPrototypes mods) e1 e2 ||
      orderedBefore (createInstances mods) e1 e2 ||
      ((createPrototypes mods).events.contains e1 &&
        (createInstances mods).events.contains e2)) = true
    have c1 : (createPrototypes mods).events.contains e1 = true :=
      (contains_iff_mem _ _).mpr h1
    have c2 : (createInstances mods).events.contains e2 = true :=
      (contains_iff_mem _ _).mpr h2
    rw [c1, c2]
    simp

/-- C4 applied at a concrete module list: one module with token 1, provider
10 and injectable 20; the prototype allocation of provider 10 is ordered
before its instantiation. -/
theorem c4_phase1_completes_before_phase2_witness :
    orderedBefore (createInstancesOfDependencies [⟨1, [10], [20]⟩])
      (LoadEvent.proto 1 UnitKind.provider 10)
      (LoadEvent.inst 1 UnitKind.provider 10) = true :=
  (c4_phase1_completes_before_phase2 [⟨1, [10], [20]⟩]).2.2
    (LoadEvent.proto 1 UnitKind.provider 10)
    (LoadEvent.inst 1 UnitKind.provider 10) (by decide) (by decide)

/-! ## Claim C10 (reflectKeyMetadata) -/

/-- C10: reflectKeyMetadata returns the metadata attached to the method's
own descriptor on the nearest prototype owning one, and returns undefined
without consulting the prototypes further up when that nearest owner
carries no metadata for the key.  Stated as: (1) the walk equals a lookup
of the first chain link owning a descriptor, whose metadata (if any) is
paired with the method key; (2) when the links before p own no descriptor,
p owns one and p carries no metadata, the result is undefined regardless of
the links behind p. -/
theorem c10_reflect_key_metadata :
    (∀ (chain : List ProtoLink) (methodKey : Nat),
      reflectKeyMetadata chain methodKey =
        (chain.find? (fun p => p.ownDescriptor)).bind
          (fun p => p.meta.map fun m => (methodKey, m))) ∧
    (∀ (pre post : List ProtoLink) (p : ProtoLink) (methodKey : Nat),
      (∀ q ∈ pre, q.ownDescriptor = false) → p.ownDescriptor = true →
        p.meta = none →
          reflectKeyMetadata (pre ++ p :: post) methodKey = none) := by
  have main : ∀ (chain : List ProtoLink) (methodKey : Nat),
      reflectKeyMetadata chain methodKey =
        (chain.find? (fun p => p.ownDescriptor)).bind
          (fun p => p.meta.map fun m => (methodKey, m)) := by
    intro chain methodKey
    induction chain with
    | nil => rfl
    | cons p rest ih =>
        obtain ⟨pd, pm⟩ := p
        cases pd
        · exact ih
        · cases pm <;> rfl
  refine ⟨main, ?_⟩
  intro pre post p methodKey hpre hp hm
  rw [main]
  have hfind : ∀ (l : List ProtoLink), (∀ q ∈ l, q.ownDescriptor = false) →
      (l ++ p :: post).find? (fun q => q.ownDescriptor) = some p := by
    intro l
    induction l with
    | nil =>
        intro _
        simp only [List.nil_append, List.find?_cons, hp]
    | cons q qs ih =>
        intro hl
        have hq := hl q (List.mem_cons_self q qs)
        simp only [List.cons_append, List.find?_cons, hq]
        exact ih fun x hx => hl x (List.mem_cons_of_mem q hx)
  rw [hfind pre hpre]
  show Option.map (fun m => (methodKey, m)) p.meta = none
  rw [hm]
  rfl

/-- C10 applied at a concrete chain: the head owns no descriptor, the next
link owns one with no metadata for the key, and a later link carrying
metadata 7 is never consulted: the result is undefined. -/
theorem c10_reflect_key_metadata_witness :
    reflectKeyMetadata [⟨false, some 9⟩, ⟨true, none⟩, ⟨true, some 7⟩] 3 = none :=
  c10_reflect_key_metadata.2 [⟨false, some 9⟩] [⟨true, some 7⟩] ⟨true, none⟩ 3
    (by decide) (by decide) rfl

/-! ## Claim C2 (distance policy on multiply reachable modules) -/

/-- C2 counterexample: in c2ExampleContainer the depth-first walk first
visits module 3 through the path 1, 2, 3 and assigns distance 2 (the first
recorded write), but the later direct import position of the root
overwrites it with distance 1; the final distance is the 1 of the last
write, not the 2 assigned by the path that visited module 3 first. -/
theorem c2_first_path_wins_counterexample :
    firstWrite (calculateModulesDistance c2ExampleContainer).trace 3 = some 2 ∧
    (calculateModulesDistance c2ExampleContainer).dist 3 = some 1 := by
  constructor <;> rfl

theorem lastWrite_append_single (tr : List (Nat × Nat)) (u d x : Nat) :
    lastWrite (tr ++ [(u, d)]) x = if x = u then some d else lastWrite tr x := by
  unfold lastWrite
  rw [List.filterMap_append]
  by_cases hx : x = u
  · subst hx
    rw [if_pos rfl,
      show List.filterMap (fun p => if p.1 = x then some p.2 else none) [(x, d)]
        = [d] from by simp,
      List.getLast?_concat]
  · rw [if_neg hx,
      show List.filterMap (fun p => if p.1 = x then some p.2 else none) [(u, d)]
        = [] from by simp [Ne.symm hx],
      List.append_nil]

theorem distConsistent_assign (s : DistState) (u d : Nat)
    (h : DistConsistent s) : DistConsistent (assignDistance s u d) := by
  intro x
  show (if x = u then some d else s.dist x) = lastWrite (s.trace ++ [(u, d)]) x
  rw [lastWrite_append_single]
  by_cases hx : x = u
  · rw [if_pos hx, if_pos hx]
  · rw [if_neg hx, if_neg hx, h x]

theorem foldl_preserves {α σ : Type} (P : σ → Prop) (step : σ → α → σ)
    (hstep : ∀ s a, P s → P (step s a)) :
    ∀ (l : List α) (s : σ), P s → P (l.foldl step s) := by
  intro l
  induction l with
  | nil => exact fun s h => h
  | cons x xs ih => exact fun s h => ih _ (hstep s x h)

theorem distConsistent_calculateDistance (imports : Nat → List Nat) :
    ∀ (fuel t d : Nat) (s : DistState), DistConsistent s →
      DistConsistent (calculateDistance imports fuel t d s) := by
  intro fuel
  induction fuel with
  | zero => exact fun t d s h => h
  | succ fuel ih =>
      intro t d s h
      rw [calculateDistance]
      by_cases hc : s.modulesStack.contains t = true
      · rw [if_pos hc]
        exact h
      · rw [if_neg hc]
        refine foldl_preserves DistConsistent _ ?_ _ _ ?_
        · intro s2 imp h2
          exact ih imp (d + 1) _ (distConsistent_assign s2 imp d h2)
        · exact h

theorem distConsistent_calculateModulesDistance (c : NestContainer) :
    DistConsistent (calculateModulesDistance c) := by
  have hempty : DistConsistent emptyDistState := fun x => rfl
  rw [calculateModulesDistance]
  cases hmods : c.modules with
  | nil => exact hempty
  | cons a tl =>
      cases tl with
      | nil => exact hempty
      | cons root rest =>
          exact distConsistent_calculateDistance _ _ _ _ _ hempty

/-- C2 (amended): after calculateModulesDistance a module's distance is the
distance assigned by the chronologically last encounter of the module at an
imported position during the depth-first walk, not the first: every
encounter overwrites the distance before the already-visited check can stop
the descent; only the recursive descent is skipped for visited modules,
never the assignment. -/
theorem c2_distance_last_encounter_wins (c : NestContainer) (t : Nat) :
    (calculateModulesDistance c).dist t =
      lastWrite (calculateModulesDistance c).trace t :=
  distConsistent_calculateModulesDistance c t

/-! ## Claim C7 counterexample (direct-import distance) -/

/-- C7 counterexample: in c7ExampleContainer module 3 sits at an import
position of the root module 1 (its import list is 3 then 2), yet after
calculateModulesDistance its distance is 2, because the walk through
module 2 overwrites the distance 1 that the direct import position had
assigned. -/
theorem c7_direct_import_distance_counterexample :
    (containerImports c7ExampleContainer 1).contains 3 = true ∧
    (calculateModulesDistance c7ExampleContainer).dist 3 = some 2 := by
  constructor <;> rfl

/-! ## Claim C9 (insertInjectable on a non-function enhancer) -/

/-- C9: insertInjectable called with a non-function injectable (an already
constructed enhancer object rather than a class) leaves the container
unchanged, returns no wrapper, and its only effect is handing the enhancer
record to the graph inspector; under the real inspector the record is
appended to the log. -/
theorem c9_insert_injectable_object_frame (insp : GraphInspectorT)
    (o token host : Nat) (st : EnhancerSubtype) (mk : Option Nat)
    (c : NestContainer) (log : List EnhancerMetadataCacheEntry) :
    (insertInjectable insp (.obj o) token host st mk c log).2.1 = c ∧
    (insertInjectable insp (.obj o) token host st mk c log).1 = none ∧
    (insertInjectable insp (.obj o) token host st mk c log).2.2 =
      insp ⟨token, host, none, some o, none, st, mk⟩ log ∧
    (insertInjectable graphInspectorReal (.obj o) token host st mk c log).2.2 =
      log ++ [⟨token, host, none, some o, none, st, mk⟩] :=
  ⟨rfl, rfl, rfl, rfl⟩

/-! ## Claim C6 (invalid class as module) -/

/-- C6: a declaration annotated as injectable, controller or exception
filter is rejected by insertModule with an InvalidClassModuleException
carrying the traversal path, and scanForModules on it fails with the same
error before anything is added to the container. -/
theorem c6_invalid_class_as_module (d : ModuleDecl) (scope : List ModuleDecl)
    (c : NestContainer) (s : ScanState)
    (h : (isInjectableDecl d || isControllerDecl d || isExceptionFilterDecl d) = true) :
    insertModule d scope c = .error (.invalidClassModule d scope) ∧
    scanForModules d scope s = .error (.invalidClassModule d scope) := by
  have hins : ∀ (c2 : NestContainer),
      insertModule d scope c2 = .error (.invalidClassModule d scope) := by
    intro c2
    rw [insertModule, if_pos h]
  refine ⟨hins c, ?_⟩
  rw [scanForModules, hins s.container]

/-- C6 applied at a concrete declaration carrying the injectable watermark:
it is rejected both by insertModule and by scanForModules. -/
theorem c6_invalid_class_as_module_witness :
    insertModule (ModuleDecl.mk 9 true false false [] [] []) [] ⟨[]⟩ =
      .error (.invalidClassModule (ModuleDecl.mk 9 true false false [] [] []) []) ∧
    scanForModules (ModuleDecl.mk 9 true false false [] [] []) [] ⟨⟨[]⟩, [], []⟩ =
      .error (.invalidClassModule (ModuleDecl.mk 9 true false false [] [] []) []) :=
  c6_invalid_class_as_module (ModuleDecl.mk 9 true false false [] [] []) []
    ⟨[]⟩ ⟨⟨[]⟩, [], []⟩ (by rfl)

/-! ## Claim C5 (undefined and invalid import positions) -/

theorem scanForModulesImportLoop_append (parent : ModuleDecl)
    (pre : List ModuleDecl) :
    ∀ (rest : List ModuleDecl) (idx : Nat) (scope : List ModuleDecl)
      (s : ScanState),
      scanForModulesImportLoop parent (pre ++ rest) idx scope s =
        loopSeq (scanForModulesImportLoop parent pre idx scope s)
          (fun s2 =>
            scanForModulesImportLoop parent rest (idx + pre.length) scope s2) := by
  induction pre with
  | nil =>
      intro rest idx scope s
      simp only [List.nil_append, List.length_nil, Nat.add_zero]
      rw [show scanForModulesImportLoop parent [] idx scope s = .ok ([], s) from by
        rw [scanForModulesImportLoop]]
      simp only [loopSeq]
      cases h : scanForModulesImportLoop parent rest idx scope s with
      | error e => rfl
      | ok r =>
          obtain ⟨more, s3⟩ := r
          rfl
  | cons e pre ih =>
      intro rest idx scope s
      rw [List.cons_append]
      cases e with
      | undef =>
          rw [show scanForModulesImportLoop parent
              (ModuleDecl.undef :: (pre ++ rest)) idx scope s =
              .error (.undefinedModule parent idx scope) from by
            rw [scanForModulesImportLoop]]
          rw [show scanForModulesImportLoop parent
              (ModuleDecl.undef :: pre) idx scope s =
              .error (.undefinedModule parent idx scope) from by
            rw [scanForModulesImportLoop]]
          rfl
      | falsy =>
          rw [show scanForModulesImportLoop parent
              (ModuleDecl.falsy :: (pre ++ rest)) idx scope s =
              .error (.invalidModule parent idx scope) from by
            rw [scanForModulesImportLoop]]
          rw [show scanForModulesImportLoop parent
              (ModuleDecl.falsy :: pre) idx scope s =
              .error (.invalidModule parent idx scope) from by
            rw [scanForModulesImportLoop]]
          rfl
      | mk i a b c imps provs exps =>
          have hlen : idx + 1 + pre.length = idx + (pre.length + 1) := by omega
          by_cases hc :
              s.ctxRegistry.contains (ModuleDecl.mk i a b c imps provs exps) = true
          · rw [show scanForModulesImportLoop parent
                (ModuleDecl.mk i a b c imps provs exps :: (pre ++ rest)) idx scope s =
                scanForModulesImportLoop parent (pre ++ rest) (idx + 1) scope s from by
              rw [scanForModulesImportLoop, if_pos hc]]
            rw [show scanForModulesImportLoop parent
                (ModuleDecl.mk i a b c imps provs exps :: pre) idx scope s =
                scanForModulesImportLoop parent pre (idx + 1) scope s from by
              rw [scanForModulesImportLoop, if_pos hc]]
            rw [ih rest (idx + 1) scope s]
            simp only [List.length_cons, hlen]
          · rw [show scanForModulesImportLoop parent
                (ModuleDecl.mk i a b c imps provs exps :: (pre ++ rest)) idx scope s =
                (match scanForModules (ModuleDecl.mk i a b c imps provs exps)
                    (scope ++ [parent]) s with
                 | .error e => .error e
                 | .ok (moduleRefs, s2) =>
                     match scanForModulesImportLoop parent (pre ++ rest)
                         (idx + 1) scope s2 with
                     | .error e => .error e
                     | .ok (more, s3) => .ok (moduleRefs ++ more, s3)) from by
              rw [scanForModulesImportLoop, if_neg hc]]
            rw [show scanForModulesImportLoop parent
                (ModuleDecl.mk i a b c imps provs exps :: pre) idx scope s =
                (match scanForModules (ModuleDecl.mk i a b c imps provs exps)
                    (scope ++ [parent]) s with
                 | .error e => .error e
                 | .ok (moduleRefs, s2) =>
                     match scanForModulesImportLoop parent pre
                         (idx + 1) scope s2 with
                     | .error e => .error e
                     | .ok (more, s3) => .ok (moduleRefs ++ more, s3)) from by
              rw [scanForModulesImportLoop, if_neg hc]]
            cases hscan : scanForModules (ModuleDecl.mk i a b c imps provs exps)
                (scope ++ [parent]) s with
            | error e => rfl
            | ok r =>
                obtain ⟨refs, s2⟩ := r
                dsimp only
                rw [ih rest (idx + 1) scope s2]
                simp only [List.length_cons, hlen]
                cases h2 : scanForModulesImportLoop parent pre (idx + 1) scope s2 with
                | error e => rfl
                | ok r2 =>
                    obtain ⟨m2, s4⟩ := r2
                    simp only [loopSeq]
                    cases h3 : scanForModulesImportLoop parent rest
                        (idx + (pre.length + 1)) scope s4 with
                    | error e => rfl
                    | ok r3 =>
                        obtain ⟨m3, s5⟩ := r3
                        dsimp only
                        rw [List.append_assoc]

/-- C5: during the import loop of scanForModules, a position holding
undefined fails the scan with UndefinedModuleException and a position
holding any other falsy value fails it with InvalidModuleException, both
carrying the offending position index and the traversal path; the checks
precede the already-visited skip (the state, including the ctxRegistry, is
arbitrary).  The last two conjuncts state the failure at the level of
scanForModules itself for a declaration whose first import position is
undefined respectively falsy. -/
theorem c5_undefined_and_invalid_import_positions :
    (∀ (parent : ModuleDecl) (pre rest : List ModuleDecl) (idx : Nat)
        (scope : List ModuleDecl) (s : ScanState)
        (refs : List ModuleEntity) (s2 : ScanState),
      scanForModulesImportLoop parent pre idx scope s = .ok (refs, s2) →
        scanForModulesImportLoop parent (pre ++ ModuleDecl.undef :: rest)
            idx scope s =
          .error (.undefinedModule parent (idx + pre.length) scope) ∧
        scanForModulesImportLoop parent (pre ++ ModuleDecl.falsy :: rest)
            idx scope s =
          .error (.invalidModule parent (idx + pre.length) scope)) ∧
    (∀ (i : Nat) (provs : List ProviderDecl) (exps : List Nat)
        (rest : List ModuleDecl) (scope : List ModuleDecl) (s : ScanState),
      scanForModules
          (ModuleDecl.mk i false false false (ModuleDecl.undef :: rest) provs exps)
          scope s =
        .error (.undefinedModule
          (ModuleDecl.mk i false false false (ModuleDecl.undef :: rest) provs exps)
          0 scope)) ∧
    (∀ (i : Nat) (provs : List ProviderDecl) (exps : List Nat)
        (rest : List ModuleDecl) (scope : List ModuleDecl) (s : ScanState),
      scanForModules
          (ModuleDecl.mk i false false false (ModuleDecl.falsy :: rest) provs exps)
          scope s =
        .error (.invalidModule
          (ModuleDecl.mk i false false false (ModuleDecl.falsy :: rest) provs exps)
          0 scope)) := by
  refine ⟨?_, ?_, ?_⟩
  · intro parent pre rest idx scope s refs s2 hok
    constructor
    · rw [scanForModulesImportLoop_append parent pre (ModuleDecl.undef :: rest)
        idx scope s, hok]
      simp only [loopSeq]
      rw [scanForModulesImportLoop]
    · rw [scanForModulesImportLoop_append parent pre (ModuleDecl.falsy :: rest)
        idx scope s, hok]
      simp only [loopSeq]
      rw [scanForModulesImportLoop]
  · intro i provs exps rest scope s
    rw [scanForModules]
    rw [show insertModule
        (ModuleDecl.mk i false false false (ModuleDecl.undef :: rest) provs exps)
        scope s.container =
        .ok ((s.container.addModule
            (ModuleDecl.mk i false false false (ModuleDecl.undef :: rest) provs exps)).1,
          (s.container.addModule
            (ModuleDecl.mk i false false false (ModuleDecl.undef :: rest) provs exps)).2)
        from rfl]
    dsimp only [importsMeta]
    rw [scanForModulesImportLoop]
  · intro i provs exps rest scope s
    rw [scanForModules]
    rw [show insertModule
        (ModuleDecl.mk i false false false (ModuleDecl.falsy :: rest) provs exps)
        scope s.container =
        .ok ((s.container.addModule
            (ModuleDecl.mk i false false false (ModuleDecl.falsy :: rest) provs exps)).1,
          (s.container.addModule
            (ModuleDecl.mk i false false false (ModuleDecl.falsy :: rest) provs exps)).2)
        from rfl]
    dsimp only [importsMeta]
    rw [scanForModulesImportLoop]

/-- C5 applied at a concrete input: the loop of the parent declaration 1
over the single import position undefined respectively falsy, from the
empty state, fails with the matching error at index 0 with the empty
traversal path. -/
theorem c5_undefined_and_invalid_import_positions_witness :
    scanForModulesImportLoop (ModuleDecl.mk 1 false false false [] [] [])
        ([] ++ ModuleDecl.undef :: []) 0 [] ⟨⟨[]⟩, [], []⟩ =
      .error (.undefinedModule (ModuleDecl.mk 1 false false false [] [] []) 0 []) ∧
    scanForModulesImportLoop (ModuleDecl.mk 1 false false false [] [] [])
        ([] ++ ModuleDecl.falsy :: []) 0 [] ⟨⟨[]⟩, [], []⟩ =
      .error (.invalidModule (ModuleDecl.mk 1 false false false [] [] []) 0 []) :=
  c5_undefined_and_invalid_import_positions.1
    (ModuleDecl.mk 1 false false false [] [] []) [] [] 0 [] ⟨⟨[]⟩, [], []⟩
    [] ⟨⟨[]⟩, [], []⟩ (by rw [scanForModulesImportLoop])

/-! ## Claim C3 (termination and registry uniqueness) -/

theorem sizeOf_importsMeta_lt (d : ModuleDecl) :
    sizeOf (importsMeta d) < sizeOf d + 1 := by
  cases d <;> simp [importsMeta] <;> omega

theorem one_le_sizeOf_declList (l : List ModuleDecl) : 1 ≤ sizeOf l := by
  cases l <;> simp <;> omega

theorem nodup_tokens_addModule (c : NestContainer) (d : ModuleDecl)
    (h : c.tokens.Nodup) : ((c.addModule d).2).tokens.Nodup := by
  rw [NestContainer.addModule]
  cases hf : c.modules.find? (fun m => m.token == d.declId) with
  | some m => exact h
  | none =>
      show ((⟨c.modules ++ [⟨d.declId, d, [], [], [], []⟩]⟩ :
        NestContainer).tokens).Nodup
      rw [NestContainer.tokens, List.map_append, List.nodup_append]
      refine ⟨h, List.nodup_singleton _, ?_⟩
      intro x hx hx2
      obtain ⟨m, hm, rfl⟩ := List.mem_map.mp hx
      have h2 := List.find?_eq_none.mp hf m hm
      simp only [List.map_cons, List.map_nil, List.mem_singleton] at hx2
      exact h2 (by simp [hx2])

theorem scan_nodup_main : ∀ (n : Nat),
    (∀ (d : ModuleDecl) (scope : List ModuleDecl) (s : ScanState)
        (r : List ModuleEntity × ScanState),
      sizeOf d + 1 ≤ n → s.container.tokens.Nodup →
        scanForModules d scope s = .ok r → r.2.container.tokens.Nodup) ∧
    (∀ (parent : ModuleDecl) (entries : List ModuleDecl) (idx : Nat)
        (scope : List ModuleDecl) (s : ScanState)
        (r : List ModuleEntity × ScanState),
      sizeOf entries ≤ n → s.container.tokens.Nodup →
        scanForModulesImportLoop parent entries idx scope s = .ok r →
          r.2.container.tokens.Nodup) := by
  intro n
  induction n using Nat.strong_induction_on with
  | _ n ih =>
      constructor
      · intro d scope s r hsz hnd hok
        rw [scanForModules] at hok
        by_cases hfl : (isInjectableDecl d || isControllerDecl d ||
            isExceptionFilterDecl d) = true
        · rw [show insertModule d scope s.container =
              .error (.invalidClassModule d scope) from by
            rw [insertModule, if_pos hfl]] at hok
          simp at hok
        · rw [show insertModule d scope s.container =
              .ok (some (s.container.addModule d).1,
                (s.container.addModule d).2) from by
            rw [insertModule, if_neg hfl]] at hok
          dsimp only at hok
          have hnd1 : ((s.container.addModule d).2).tokens.Nodup :=
            nodup_tokens_addModule s.container d hnd
          cases hloop : scanForModulesImportLoop d (importsMeta d) 0 scope
              ⟨(s.container.addModule d).2, s.ctxRegistry ++ [d], s.log⟩ with
          | error e => rw [hloop] at hok; simp at hok
          | ok r2 =>
              rw [hloop] at hok
              obtain ⟨refs2, s2⟩ := r2
              dsimp only at hok
              have hr2 : s2.container.tokens.Nodup := by
                have hlt : sizeOf (importsMeta d) < n :=
                  Nat.lt_of_lt_of_le (sizeOf_importsMeta_lt d) hsz
                exact (ih (sizeOf (importsMeta d)) hlt).2 d (importsMeta d) 0
                  scope ⟨(s.container.addModule d).2, s.ctxRegistry ++ [d], s.log⟩
                  (refs2, s2) (le_refl _) hnd1 hloop
              cases hok
              exact hr2
      · intro parent entries idx scope s r hsz hnd hok
        cases entries with
        | nil =>
            rw [scanForModulesImportLoop] at hok
            cases hok
            exact hnd
        | cons e rest =>
            have hrest : sizeOf rest < n := by
              have h1 : 1 ≤ sizeOf e := by cases e <;> simp <;> omega
              have h2 : sizeOf (e :: rest) = 1 + sizeOf e + sizeOf rest := by simp
              omega
            cases e with
            | undef => rw [scanForModulesImportLoop] at hok; simp at hok
            | falsy => rw [scanForModulesImportLoop] at hok; simp at hok
            | mk i a b c imps provs exps =>
                rw [scanForModulesImportLoop] at hok
                by_cases hc : s.ctxRegistry.contains
                    (ModuleDecl.mk i a b c imps provs exps) = true
                · rw [if_pos hc] at hok
                  exact (ih (sizeOf rest) hrest).2 parent rest (idx + 1)
                    scope s r (le_refl _) hnd hok
                · rw [if_neg hc] at hok
                  have hmeas : sizeOf (ModuleDecl.mk i a b c imps provs exps) + 1 < n := by
                    have h1 := one_le_sizeOf_declList rest
                    have h2 : sizeOf (ModuleDecl.mk i a b c imps provs exps :: rest) =
                        1 + sizeOf (ModuleDecl.mk i a b c imps provs exps) +
                          sizeOf rest := by simp
                    omega
                  cases hscan : scanForModules (ModuleDecl.mk i a b c imps provs exps)
                      (scope ++ [parent]) s with
                  | error e2 => rw [hscan] at hok; simp at hok
                  | ok r2 =>
                      rw [hscan] at hok
                      obtain ⟨refs2, s2⟩ := r2
                      dsimp only at hok
                      have hnd2 : s2.container.tokens.Nodup :=
                        (ih (sizeOf (ModuleDecl.mk i a b c imps provs exps) + 1)
                            hmeas).1
                          (ModuleDecl.mk i a b c imps provs exps)
                          (scope ++ [parent]) s (refs2, s2) (le_refl _) hnd hscan
                      cases hloop2 : scanForModulesImportLoop parent rest
                          (idx + 1) scope s2 with
                      | error e2 => rw [hloop2] at hok; simp at hok
                      | ok r3 =>
                          rw [hloop2] at hok
                          obtain ⟨refs3, s3⟩ := r3
                          dsimp only at hok
                          have hnd3 : s3.container.tokens.Nodup :=
                            (ih (sizeOf rest) hrest).2 parent rest (idx + 1)
                              scope s2 (refs3, s3) (le_refl _) hnd2 hloop2
                          cases hok
                          exact hnd3

/-- C3: in the embedding scanForModules is a total function on declaration
trees (the acyclic module graphs of the claim), which is the termination
half of the claim; the first conjunct states that a scan from a registry
with pairwise distinct identity tokens leaves the registry with pairwise
distinct identity tokens (exactly one Module entity per unique token no
matter how many import positions reference a module), and the second
conjunct states that addModule is idempotent by token: re-adding a known
module returns the existing entity and the unchanged registry. -/
theorem c3_scan_registry_unique_tokens :
    (∀ (d : ModuleDecl) (scope : List ModuleDecl) (s : ScanState)
        (r : List ModuleEntity × ScanState),
      s.container.tokens.Nodup → scanForModules d scope s = .ok r →
        r.2.container.tokens.Nodup) ∧
    (∀ (c : NestContainer) (d : ModuleDecl) (m : ModuleEntity),
      c.modules.find? (fun x => x.token == d.declId) = some m →
        c.addModule d = (m, c)) := by
  constructor
  · intro d scope s r hnd hok
    exact (scan_nodup_main (sizeOf d + 1)).1 d scope s r (le_refl _) hnd hok
  · intro c d m hf
    rw [NestContainer.addModule, hf]

/-- C3 applied at a concrete input: scanning module 2, which imports module
3 at two different positions, registers each of the tokens 2 and 3 exactly
once; and re-adding declaration 4 to a registry already holding token 4
returns the existing entity with the registry unchanged. -/
theorem c3_scan_registry_unique_tokens_witness :
    (⟨[⟨2, ModuleDecl.mk 2 false false false
          [ModuleDecl.mk 3 false false false [] [] [],
           ModuleDecl.mk 3 false false false [] [] []] [] [], [], [], [], []⟩,
       ⟨3, ModuleDecl.mk 3 false false false [] [] [], [], [], [], []⟩]⟩ :
      NestContainer).tokens.Nodup ∧
    (⟨[⟨4, ModuleDecl.mk 4 false false false [] [] [], [], [], [], []⟩]⟩ :
        NestContainer).addModule (ModuleDecl.mk 4 false false false [] [] []) =
      (⟨4, ModuleDecl.mk 4 false false false [] [] [], [], [], [], []⟩,
        ⟨[⟨4, ModuleDecl.mk 4 false false false [] [] [], [], [], [], []⟩]⟩) :=
  ⟨c3_scan_registry_unique_tokens.1
      (ModuleDecl.mk 2 false false false
        [ModuleDecl.mk 3 false false false [] [] [],
         ModuleDecl.mk 3 false false false [] [] []] [] [])
      [] ⟨⟨[]⟩, [], []⟩
      ([⟨2, ModuleDecl.mk 2 false false false
            [ModuleDecl.mk 3 false false false [] [] [],
             ModuleDecl.mk 3 false false false [] [] []] [] [], [], [], [], []⟩,
        ⟨3, ModuleDecl.mk 3 false false false [] [] [], [], [], [], []⟩],
       ⟨⟨[⟨2, ModuleDecl.mk 2 false false false
              [ModuleDecl.mk 3 false false false [] [] [],
               ModuleDecl.mk 3 false false false [] [] []] [] [], [], [], [], []⟩,
          ⟨3, ModuleDecl.mk 3 false false false [] [] [], [], [], [], []⟩]⟩,
        [ModuleDecl.mk 2 false false false
           [ModuleDecl.mk 3 false false false [] [] [],
            ModuleDecl.mk 3 false false false [] [] []] [] [],
         ModuleDecl.mk 3 false false false [] [] []],
        []⟩)
      (by simp [NestContainer.tokens])
      (by simp [scanForModules, scanForModulesImportLoop, insertModule,
        NestContainer.addModule, importsMeta, isInjectableDecl, isControllerDecl,
        isExceptionFilterDecl, instBEqModuleDecl, ModuleDecl.beq,
        ModuleDecl.beqList, List.contains, ModuleDecl.declId]),
    c3_scan_registry_unique_tokens.2
      ⟨[⟨4, ModuleDecl.mk 4 false false false [] [] [], [], [], [], []⟩]⟩
      (ModuleDecl.mk 4 false false false [] [] [])
      ⟨4, ModuleDecl.mk 4 false false false [] [] [], [], [], [], []⟩
      (by rfl)⟩

/-! ## Claim C8 (graph inspector never influences resolution) -/

theorem insertInjectable_insp_congr (insp1 insp2 : GraphInspectorT)
    (inj : EnhancerRef) (token host : Nat) (st : EnhancerSubtype)
    (mk : Option Nat) (c : NestContainer)
    (log1 log2 : List EnhancerMetadataCacheEntry) :
    (insertInjectable insp1 inj token host st mk c log1).1 =
      (insertInjectable insp2 inj token host st mk c log2).1 ∧
    (insertInjectable insp1 inj token host st mk c log1).2.1 =
      (insertInjectable insp2 inj token host st mk c log2).2.1 := by
  cases inj <;> exact ⟨rfl, rfl⟩

theorem insertInjectableList_insp_congr (insp1 insp2 : GraphInspectorT)
    (entries : List (EnhancerRef × EnhancerSubtype)) :
    ∀ (token host : Nat) (mk : Option Nat) (c : NestContainer)
      (log1 log2 : List EnhancerMetadataCacheEntry),
      (insertInjectableList insp1 entries token host mk c log1).1 =
        (insertInjectableList insp2 entries token host mk c log2).1 := by
  induction entries with
  | nil => intro token host mk c log1 log2; rfl
  | cons e rest ih =>
      intro token host mk c log1 log2
      obtain ⟨er, st⟩ := e
      rw [insertInjectableList, insertInjectableList]
      rw [(insertInjectable_insp_congr insp1 insp2 er token host st mk c
        log1 log2).2]
      exact ih token host mk _ _ _

theorem insertMethodInjectableList_insp_congr (insp1 insp2 : GraphInspectorT)
    (entries : List MethodEnhancers) :
    ∀ (token host : Nat) (c : NestContainer)
      (log1 log2 : List EnhancerMetadataCacheEntry),
      (insertMethodInjectableList insp1 entries token host c log1).1 =
        (insertMethodInjectableList insp2 entries token host c log2).1 := by
  induction entries with
  | nil => intro token host c log1 log2; rfl
  | cons me rest ih =>
      intro token host c log1 log2
      rw [insertMethodInjectableList, insertMethodInjectableList]
      rw [insertInjectableList_insp_congr insp1 insp2 me.refs token host
        (some me.methodKey) c log1 log2]
      exact ih token host _ _ _

theorem reflectDynamicMetadata_insp_congr (insp1 insp2 : GraphInspectorT)
    (cls : ProviderDecl) (token : Nat) (c : NestContainer)
    (log1 log2 : List EnhancerMetadataCacheEntry) :
    (reflectDynamicMetadata insp1 cls token c log1).1 =
      (reflectDynamicMetadata insp2 cls token c log2).1 := by
  rw [reflectDynamicMetadata, reflectDynamicMetadata]
  rw [insertInjectableList_insp_congr insp1 insp2 cls.classEnhancers token
    cls.id none c log1 log2]
  exact insertMethodInjectableList_insp_congr insp1 insp2 cls.methodEnhancers
    token cls.id _ _ _

theorem reflectProvidersLoop_insp_congr (insp1 insp2 : GraphInspectorT)
    (providers : List ProviderDecl) :
    ∀ (token : Nat) (c : NestContainer)
      (log1 log2 : List EnhancerMetadataCacheEntry),
      (reflectProvidersLoop insp1 providers token c log1).1 =
        (reflectProvidersLoop insp2 providers token c log2).1 := by
  induction providers with
  | nil => intro token c log1 log2; rfl
  | cons p rest ih =>
      intro token c log1 log2
      rw [reflectProvidersLoop, reflectProvidersLoop]
      rw [reflectDynamicMetadata_insp_congr insp1 insp2 p token
        (insertProvider p token c) log1 log2]
      exact ih token _ _ _

theorem reflectProviders_insp_congr (insp1 insp2 : GraphInspectorT)
    (module : ModuleDecl) (token : Nat) (c : NestContainer)
    (log1 log2 : List EnhancerMetadataCacheEntry) :
    (reflectProviders insp1 module token c log1).1 =
      (reflectProviders insp2 module token c log2).1 :=
  reflectProvidersLoop_insp_congr insp1 insp2 (providersMeta module)
    token c log1 log2

theorem pass2Loop_insp_congr (insp1 insp2 : GraphInspectorT)
    (entries : List (Nat × ModuleDecl)) :
    ∀ (c : NestContainer) (log1 log2 : List EnhancerMetadataCacheEntry),
      (scanModulesForDependenciesLoop insp1 entries c log1).map Prod.fst =
        (scanModulesForDependenciesLoop insp2 entries c log2).map Prod.fst := by
  induction entries with
  | nil => intro c log1 log2; rfl
  | cons e rest ih =>
      intro c log1 log2
      obtain ⟨token, metatype⟩ := e
      rw [scanModulesForDependenciesLoop, scanModulesForDependenciesLoop]
      cases him : reflectImports metatype token metatype.declId c with
      | error e2 => rfl
      | ok c1 =>
          dsimp only
          rw [show (reflectProviders insp2 metatype token c1 log2).1 =
            (reflectProviders insp1 metatype token c1 log1).1 from
            (reflectProviders_insp_congr insp2 insp1 metatype token c1
              log2 log1)]
          exact ih _ _ _

theorem pass2_insp_congr (insp1 insp2 : GraphInspectorT) (s : ScanState) :
    (scanModulesForDependencies insp1 s).map
        (fun st => (st.container, st.ctxRegistry)) =
      (scanModulesForDependencies insp2 s).map
        (fun st => (st.container, st.ctxRegistry)) := by
  rw [scanModulesForDependencies, scanModulesForDependencies]
  have hl := pass2Loop_insp_congr insp1 insp2
    (s.container.modules.map fun m => (m.token, m.metatype))
    s.container s.log s.log
  cases h1 : scanModulesForDependenciesLoop insp1
      (s.container.modules.map fun m => (m.token, m.metatype))
      s.container s.log with
  | error e =>
      cases h2 : scanModulesForDependenciesLoop insp2
          (s.container.modules.map fun m => (m.token, m.metatype))
          s.container s.log with
      | error e2 =>
          rw [h1, h2] at hl
          simp only [Except.map] at hl
          cases hl
          rfl
      | ok r =>
          rw [h1, h2] at hl
          simp [Except.map] at hl
  | ok r =>
      cases h2 : scanModulesForDependenciesLoop insp2
          (s.container.modules.map fun m => (m.token, m.metatype))
          s.container s.log with
      | error e2 =>
          rw [h1, h2] at hl
          simp [Except.map] at hl
      | ok r2 =>
          rw [h1, h2] at hl
          obtain ⟨c1, l1⟩ := r
          obtain ⟨c2, l2⟩ := r2
          simp only [Except.map] at hl
          cases hl
          rfl

theorem scan_insp_congr (insp1 insp2 : GraphInspectorT) (d : ModuleDecl) :
    (scan insp1 d).map (fun p => (p.1.container, p.1.ctxRegistry, p.2)) =
      (scan insp2 d).map (fun p => (p.1.container, p.1.ctxRegistry, p.2)) := by
  rw [scan, scan]
  cases h0 : registerCoreModule ⟨⟨[]⟩, [], []⟩ with
  | error e => rfl
  | ok s1 =>
      dsimp only
      cases h1 : scanForModules d [] s1 with
      | error e => rfl
      | ok r =>
          obtain ⟨refs, s2⟩ := r
          dsimp only
          have hp := pass2_insp_congr insp1 insp2 s2
          cases h2 : scanModulesForDependencies insp1 s2 with
          | error e =>
              cases h3 : scanModulesForDependencies insp2 s2 with
              | error e2 =>
                  rw [h2, h3] at hp
                  simp only [Except.map] at hp
                  cases hp
                  rfl
              | ok s3 =>
                  rw [h2, h3] at hp
                  simp [Except.map] at hp
          | ok s3 =>
              cases h3 : scanModulesForDependencies insp2 s2 with
              | error e2 =>
                  rw [h2, h3] at hp
                  simp [Except.map] at hp
              | ok s4 =>
                  rw [h2, h3] at hp
                  simp only [Except.map] at hp
                  have hinj := Except.ok.inj hp
                  have hc : s3.container = s4.container :=
                    congrArg Prod.fst hinj
                  have hctx : s3.ctxRegistry = s4.ctxRegistry :=
                    congrArg (fun t => t.2) hinj
                  simp only [Except.map]
                  rw [hc, hctx]

/-- C8: the bootstrap outcome apart from the inspector log (the module
registry, the computed distances and the instantiation task handed to the
Injector, together with success or the exact failure) is identical with the
snapshot option enabled (the real GraphInspector) and disabled (the no-op
inspector): the inspector's recording calls never influence which modules,
wrappers or instances are produced, nor whether the bootstrap succeeds. -/
theorem c8_snapshot_inspector_no_influence (d : ModuleDecl) :
    (bootstrap d true).map Prod.fst = (bootstrap d false).map Prod.fst := by
  rw [bootstrap, bootstrap]
  have hs := scan_insp_congr (createGraphInspector true)
    (createGraphInspector false) d
  cases h1 : scan (createGraphInspector true) d with
  | error e =>
      cases h2 : scan (createGraphInspector false) d with
      | error e2 =>
          rw [h1, h2] at hs
          simp only [Except.map] at hs
          cases hs
          rfl
      | ok p =>
          rw [h1, h2] at hs
          simp [Except.map] at hs
  | ok p =>
      cases h2 : scan (createGraphInspector false) d with
      | error e2 =>
          rw [h1, h2] at hs
          simp [Except.map] at hs
      | ok q =>
          rw [h1, h2] at hs
          obtain ⟨s3, d3⟩ := p
          obtain ⟨s4, d4⟩ := q
          simp only [Except.map] at hs
          have hinj := Except.ok.inj hs
          have hc : s3.container = s4.container := congrArg Prod.fst hinj
          have hd : d3 = d4 := congrArg (fun t => t.2.2) hinj
          dsimp only
          rw [hc, hd]
          rfl


/-! ## Claim C7: instrumented-walk correspondence and basic invariants -/

theorem foldl_hom_forget {α : Type} (f : DistStateV → α → DistStateV)
    (h : DistState → α → DistState)
    (hcomm : ∀ s a, (f s a).forget = h s.forget a) :
    ∀ (l : List α) (s : DistStateV),
      (l.foldl f s).forget = l.foldl h s.forget := by
  intro l
  induction l with
  | nil => intro s; rfl
  | cons x xs ih =>
      intro s
      rw [List.foldl_cons, List.foldl_cons, ih, hcomm]

theorem forget_calculateDistanceV (g : Nat → List Nat) :
    ∀ (fuel t d : Nat) (s : DistStateV),
      (calculateDistanceV g fuel t d s).forget =
        calculateDistance g fuel t d s.forget := by
  intro fuel
  induction fuel with
  | zero => intro t d s; rfl
  | succ fuel ih =>
      intro t d s
      rw [calculateDistanceV, calculateDistance]
      by_cases hc : s.modulesStack.contains t = true
      · rw [if_pos hc,
          if_pos (show (DistStateV.forget s).modulesStack.contains t = true from hc)]
      · rw [if_neg hc,
          if_neg (show ¬(DistStateV.forget s).modulesStack.contains t = true from hc)]
        exact foldl_hom_forget _ _
          (fun s2 a => by
            rw [ih a (d + 1) (assignDistanceV s2 a d)]
            rfl)
          (g t) _

theorem stateExtends_refl (s : DistStateV) : StateExtends s s :=
  ⟨[], [], by simp, by simp, by simp⟩

theorem stateExtends_trans {s1 s2 s3 : DistStateV}
    (h12 : StateExtends s1 s2) (h23 : StateExtends s2 s3) :
    StateExtends s1 s3 := by
  obtain ⟨a1, b1, hv1, hs1, ht1⟩ := h12
  obtain ⟨a2, b2, hv2, hs2, ht2⟩ := h23
  exact ⟨a1 ++ a2, b1 ++ b2,
    by rw [hv2, hv1, List.append_assoc],
    by rw [hs2, hs1, List.map_append, List.append_assoc],
    by rw [ht2, ht1, List.append_assoc]⟩

theorem stateExtends_assign (s : DistStateV) (t d : Nat) :
    StateExtends s (assignDistanceV s t d) :=
  ⟨[], [(t, d)], by simp [assignDistanceV], by simp [assignDistanceV],
    by simp [assignDistanceV]⟩

theorem stateExtends_calculateDistanceV (g : Nat → List Nat) :
    ∀ (fuel t d : Nat) (s : DistStateV),
      StateExtends s (calculateDistanceV g fuel t d s) := by
  intro fuel
  induction fuel with
  | zero => intro t d s; exact stateExtends_refl s
  | succ fuel ih =>
      intro t d s
      rw [calculateDistanceV]
      by_cases hc : s.modulesStack.contains t = true
      · rw [if_pos hc]; exact stateExtends_refl s
      · rw [if_neg hc]
        have hstep : ∀ (s2 : DistStateV) (a : Nat),
            StateExtends s2
              (calculateDistanceV g fuel a (d + 1) (assignDistanceV s2 a d)) :=
          fun s2 a =>
            stateExtends_trans (stateExtends_assign s2 a d)
              (ih a (d + 1) (assignDistanceV s2 a d))
        have hs1 : StateExtends s
            ⟨s.modulesStack ++ [t], s.dist, s.trace, s.visits ++ [(t, d)]⟩ :=
          ⟨[(t, d)], [], by simp, by simp, by simp⟩
        exact foldl_preserves (StateExtends s) _
          (fun s2 a h2 => stateExtends_trans h2 (hstep s2 a)) (g t) _ hs1

theorem mem_visits_of_stateExtends {s1 s2 : DistStateV}
    (h : StateExtends s1 s2) {e : Nat × Nat} (he : e ∈ s1.visits) :
    e ∈ s2.visits := by
  obtain ⟨dv, dt, hv, _, _⟩ := h
  rw [hv]
  exact List.mem_append.mpr (Or.inl he)

theorem mem_trace_of_stateExtends {s1 s2 : DistStateV}
    (h : StateExtends s1 s2) {e : Nat × Nat} (he : e ∈ s1.trace) :
    e ∈ s2.trace := by
  obtain ⟨dv, dt, _, _, ht⟩ := h
  rw [ht]
  exact List.mem_append.mpr (Or.inl he)

theorem mem_stack_of_stateExtends {s1 s2 : DistStateV}
    (h : StateExtends s1 s2) {x : Nat} (hx : x ∈ s1.modulesStack) :
    x ∈ s2.modulesStack := by
  obtain ⟨dv, dt, _, hs, _⟩ := h
  rw [hs]
  exact List.mem_append.mpr (Or.inl hx)

theorem goodState_calculateDistanceV (g : Nat → List Nat) :
    ∀ (fuel t d : Nat) (s : DistStateV),
      GoodState s → GoodState (calculateDistanceV g fuel t d s) := by
  intro fuel
  induction fuel with
  | zero => intro t d s h; exact h
  | succ fuel ih =>
      intro t d s h
      rw [calculateDistanceV]
      by_cases hc : s.modulesStack.contains t = true
      · rw [if_pos hc]; exact h
      · rw [if_neg hc]
        refine foldl_preserves GoodState
          (fun acc imp => calculateDistanceV g fuel imp (d + 1)
            (assignDistanceV acc imp d))
          (fun s2 a h2 => ih a (d + 1) (assignDistanceV s2 a d) h2) (g t)
          ⟨s.modulesStack ++ [t], s.dist, s.trace, s.visits ++ [(t, d)]⟩ ?_
        constructor
        · show s.modulesStack ++ [t] = (s.visits ++ [(t, d)]).map Prod.fst
          rw [List.map_append, h.1]
          rfl
        · show ((s.visits ++ [(t, d)]).map Prod.fst).Nodup
          rw [List.map_append, List.nodup_append]
          refine ⟨h.2, List.nodup_singleton _, ?_⟩
          intro x hx hx2
          rw [show ([(t, d)].map Prod.fst) = [t] from rfl,
            List.mem_singleton] at hx2
          subst hx2
          rw [← h.1] at hx
          exact hc ((contains_iff_mem s.modulesStack x).mpr hx)

theorem top_visit_mem (g : Nat → List Nat) (fuel t d : Nat) (s : DistStateV)
    (hst : s.modulesStack.contains t = false) :
    (t, d) ∈ (calculateDistanceV g (fuel + 1) t d s).visits := by
  rw [calculateDistanceV, if_neg (by rw [hst]; exact Bool.false_ne_true)]
  have hs1 : (t, d) ∈
      (⟨s.modulesStack ++ [t], s.dist, s.trace, s.visits ++ [(t, d)]⟩ :
        DistStateV).visits :=
    List.mem_append.mpr (Or.inr (List.mem_singleton.mpr rfl))
  have hext := foldl_preserves
    (StateExtends ⟨s.modulesStack ++ [t], s.dist, s.trace,
      s.visits ++ [(t, d)]⟩) _
    (fun s2 a h2 => stateExtends_trans h2
      (stateExtends_trans (stateExtends_assign s2 a d)
        (stateExtends_calculateDistanceV g fuel a (d + 1) _)))
    (g t) _ (stateExtends_refl _)
  exact mem_visits_of_stateExtends hext hs1

theorem self_mem_stack_calculateDistanceV (g : Nat → List Nat)
    (fuel a d2 : Nat) (s2 : DistStateV) :
    a ∈ (calculateDistanceV g (fuel + 1) a d2 s2).modulesStack := by
  rw [calculateDistanceV]
  by_cases hc : s2.modulesStack.contains a = true
  · rw [if_pos hc]
    exact (contains_iff_mem _ _).mp hc
  · rw [if_neg hc]
    have hmem : a ∈ (⟨s2.modulesStack ++ [a], s2.dist, s2.trace,
        s2.visits ++ [(a, d2)]⟩ : DistStateV).modulesStack :=
      List.mem_append.mpr (Or.inr (List.mem_singleton.mpr rfl))
    have hext := foldl_preserves
      (StateExtends ⟨s2.modulesStack ++ [a], s2.dist, s2.trace,
        s2.visits ++ [(a, d2)]⟩) _
      (fun s3 b h3 => stateExtends_trans h3
        (stateExtends_trans (stateExtends_assign s3 b d2)
          (stateExtends_calculateDistanceV g fuel b (d2 + 1) _)))
      (g a) _ (stateExtends_refl _)
    exact mem_stack_of_stateExtends hext hmem

theorem write_provenance (g : Nat → List Nat) :
    ∀ (fuel t d : Nat) (s : DistStateV) (x v : Nat),
      (x, v) ∈ (calculateDistanceV g fuel t d s).trace →
        (x, v) ∈ s.trace ∨
          ∃ u, (u, v) ∈ (calculateDistanceV g fuel t d s).visits ∧ x ∈ g u := by
  intro fuel
  induction fuel with
  | zero => intro t d s x v hx; exact Or.inl hx
  | succ fuel ih =>
      intro t d s x v
      rw [calculateDistanceV]
      by_cases hc : s.modulesStack.contains t = true
      · rw [if_pos hc]
        exact fun h => Or.inl h
      · rw [if_neg hc]
        have LW : ∀ (l : List Nat) (acc : DistStateV),
            (∀ a ∈ l, a ∈ g t) →
            (t, d) ∈ acc.visits →
            (∀ x2 v2, (x2, v2) ∈ acc.trace → (x2, v2) ∈ s.trace ∨
              ∃ u, (u, v2) ∈ acc.visits ∧ x2 ∈ g u) →
            ∀ x2 v2,
              (x2, v2) ∈ (l.foldl (fun acc2 imp =>
                calculateDistanceV g fuel imp (d + 1)
                  (assignDistanceV acc2 imp d)) acc).trace →
              (x2, v2) ∈ s.trace ∨
                ∃ u, (u, v2) ∈ (l.foldl (fun acc2 imp =>
                  calculateDistanceV g fuel imp (d + 1)
                    (assignDistanceV acc2 imp d)) acc).visits ∧ x2 ∈ g u := by
          intro l
          induction l with
          | nil => intro acc hsub htd hacc; exact hacc
          | cons a l ihl =>
              intro acc hsub htd hacc x2 v2 hmem
              rw [List.foldl_cons] at hmem ⊢
              have hstep_ext : StateExtends acc
                  (calculateDistanceV g fuel a (d + 1) (assignDistanceV acc a d)) :=
                stateExtends_trans (stateExtends_assign acc a d)
                  (stateExtends_calculateDistanceV g fuel a (d + 1) _)
              refine ihl _ (fun b hb => hsub b (List.mem_cons_of_mem a hb))
                (mem_visits_of_stateExtends hstep_ext htd) ?_ x2 v2 hmem
              intro x3 v3 hx3
              rcases ih a (d + 1) (assignDistanceV acc a d) x3 v3 hx3 with
                h | ⟨u, hu, hgu⟩
              · have h2 : (x3, v3) ∈ acc.trace ++ [(a, d)] := h
                rcases List.mem_append.mp h2 with h3 | h3
                · rcases hacc x3 v3 h3 with h4 | ⟨u, hu, hgu⟩
                  · exact Or.inl h4
                  · exact Or.inr ⟨u, mem_visits_of_stateExtends hstep_ext hu, hgu⟩
                · rw [List.mem_singleton, Prod.mk.injEq] at h3
                  obtain ⟨rfl, rfl⟩ := h3
                  exact Or.inr ⟨t, mem_visits_of_stateExtends hstep_ext htd,
                    hsub x3 (List.mem_cons_self x3 l)⟩
              · exact Or.inr ⟨u, hu, hgu⟩
        intro hmem
        refine LW (g t)
          ⟨s.modulesStack ++ [t], s.dist, s.trace, s.visits ++ [(t, d)]⟩
          (fun a ha => ha)
          (List.mem_append.mpr (Or.inr (List.mem_singleton.mpr rfl)))
          (fun x2 v2 h2 => Or.inl h2) x v hmem

theorem visit_provenance (g : Nat → List Nat) :
    ∀ (fuel t d : Nat) (s : DistStateV) (e : Nat × Nat),
      e ∈ (calculateDistanceV g fuel t d s).visits →
        e ∈ s.visits ∨ e = (t, d) ∨
          ∃ u q, (u, q) ∈ (calculateDistanceV g fuel t d s).visits ∧
            e.1 ∈ g u ∧ e.2 = q + 1 := by
  intro fuel
  induction fuel with
  | zero => intro t d s e he; exact Or.inl he
  | succ fuel ih =>
      intro t d s e
      rw [calculateDistanceV]
      by_cases hc : s.modulesStack.contains t = true
      · rw [if_pos hc]
        exact fun h => Or.inl h
      · rw [if_neg hc]
        have LV : ∀ (l : List Nat) (acc : DistStateV),
            (∀ a ∈ l, a ∈ g t) →
            (t, d) ∈ acc.visits →
            (∀ e2 : Nat × Nat, e2 ∈ acc.visits → e2 ∈ s.visits ∨ e2 = (t, d) ∨
              ∃ u q, (u, q) ∈ acc.visits ∧ e2.1 ∈ g u ∧ e2.2 = q + 1) →
            ∀ e2 : Nat × Nat,
              e2 ∈ (l.foldl (fun acc2 imp =>
                calculateDistanceV g fuel imp (d + 1)
                  (assignDistanceV acc2 imp d)) acc).visits →
              e2 ∈ s.visits ∨ e2 = (t, d) ∨
                ∃ u q, (u, q) ∈ (l.foldl (fun acc2 imp =>
                  calculateDistanceV g fuel imp (d + 1)
                    (assignDistanceV acc2 imp d)) acc).visits ∧
                  e2.1 ∈ g u ∧ e2.2 = q + 1 := by
          intro l
          induction l with
          | nil => intro acc hsub htd hacc; exact hacc
          | cons a l ihl =>
              intro acc hsub htd hacc e2 hmem
              rw [List.foldl_cons] at hmem ⊢
              have hstep_ext : StateExtends acc
                  (calculateDistanceV g fuel a (d + 1) (assignDistanceV acc a d)) :=
                stateExtends_trans (stateExtends_assign acc a d)
                  (stateExtends_calculateDistanceV g fuel a (d + 1) _)
              refine ihl _ (fun b hb => hsub b (List.mem_cons_of_mem a hb))
                (mem_visits_of_stateExtends hstep_ext htd) ?_ e2 hmem
              intro e3 he3
              rcases ih a (d + 1) (assignDistanceV acc a d) e3 he3 with
                h | h | ⟨u, q, hu, hgu, hq⟩
              · have h2 : e3 ∈ acc.visits := h
                rcases hacc e3 h2 with h3 | h3 | ⟨u, q, hu, hgu, hq⟩
                · exact Or.inl h3
                · exact Or.inr (Or.inl h3)
                · exact Or.inr (Or.inr
                    ⟨u, q, mem_visits_of_stateExtends hstep_ext hu, hgu, hq⟩)
              · subst h
                exact Or.inr (Or.inr
                  ⟨t, d, mem_visits_of_stateExtends hstep_ext htd,
                    hsub a (List.mem_cons_self a l), rfl⟩)
              · exact Or.inr (Or.inr ⟨u, q, hu, hgu, hq⟩)
        intro hmem
        refine LV (g t)
          ⟨s.modulesStack ++ [t], s.dist, s.trace, s.visits ++ [(t, d)]⟩
          (fun a ha => ha)
          (List.mem_append.mpr (Or.inr (List.mem_singleton.mpr rfl)))
          ?_ e hmem
        intro e2 he2
        have h2 : e2 ∈ s.visits ++ [(t, d)] := he2
        rcases List.mem_append.mp h2 with h3 | h3
        · exact Or.inl h3
        · exact Or.inr (Or.inl (List.mem_singleton.mp h3))

theorem visit_writes (g : Nat → List Nat) :
    ∀ (fuel t d : Nat) (s : DistStateV) (u p : Nat),
      (u, p) ∈ (calculateDistanceV g fuel t d s).visits →
        (u, p) ∈ s.visits ∨
          ∀ y ∈ g u, (y, p) ∈ (calculateDistanceV g fuel t d s).trace := by
  intro fuel
  induction fuel with
  | zero => intro t d s u p h; exact Or.inl h
  | succ fuel ih =>
      intro t d s u p
      rw [calculateDistanceV]
      by_cases hc : s.modulesStack.contains t = true
      · rw [if_pos hc]
        exact fun h => Or.inl h
      · rw [if_neg hc]
        have LT : ∀ (l : List Nat) (acc : DistStateV),
            (∀ u2 p2, (u2, p2) ∈ acc.visits → (u2, p2) ∈ s.visits ∨
              (u2 = t ∧ p2 = d) ∨ ∀ y ∈ g u2, (y, p2) ∈ acc.trace) →
            (∀ y ∈ g t, y ∈ l ∨ (y, d) ∈ acc.trace) →
            ∀ u2 p2,
              (u2, p2) ∈ (l.foldl (fun acc2 imp =>
                calculateDistanceV g fuel imp (d + 1)
                  (assignDistanceV acc2 imp d)) acc).visits →
              (u2, p2) ∈ s.visits ∨
                ∀ y ∈ g u2, (y, p2) ∈ (l.foldl (fun acc2 imp =>
                  calculateDistanceV g fuel imp (d + 1)
                    (assignDistanceV acc2 imp d)) acc).trace := by
          intro l
          induction l with
          | nil =>
              intro acc hacc htdone u2 p2 hmem
              rcases hacc u2 p2 hmem with h | ⟨rfl, rfl⟩ | h
              · exact Or.inl h
              · refine Or.inr fun y hy => ?_
                rcases htdone y hy with h2 | h2
                · exact absurd h2 (List.not_mem_nil y)
                · exact h2
              · exact Or.inr h
          | cons a l ihl =>
              intro acc hacc htdone u2 p2 hmem
              rw [List.foldl_cons] at hmem ⊢
              have hrun_ext : StateExtends (assignDistanceV acc a d)
                  (calculateDistanceV g fuel a (d + 1) (assignDistanceV acc a d)) :=
                stateExtends_calculateDistanceV g fuel a (d + 1) _
              have hstep_ext : StateExtends acc
                  (calculateDistanceV g fuel a (d + 1) (assignDistanceV acc a d)) :=
                stateExtends_trans (stateExtends_assign acc a d) hrun_ext
              refine ihl _ ?_ ?_ u2 p2 hmem
              · intro u3 p3 h3
                rcases ih a (d + 1) (assignDistanceV acc a d) u3 p3 h3 with
                  h4 | h4
                · have h5 : (u3, p3) ∈ acc.visits := h4
                  rcases hacc u3 p3 h5 with h6 | h6 | h6
                  · exact Or.inl h6
                  · exact Or.inr (Or.inl h6)
                  · refine Or.inr (Or.inr fun y hy => ?_)
                    exact mem_trace_of_stateExtends hstep_ext (h6 y hy)
                · exact Or.inr (Or.inr h4)
              · intro y hy
                rcases htdone y hy with h2 | h2
                · rcases List.mem_cons.mp h2 with rfl | h3
                  · refine Or.inr ?_
                    have hw : (y, d) ∈ (assignDistanceV acc y d).trace :=
                      List.mem_append.mpr (Or.inr (List.mem_singleton.mpr rfl))
                    exact mem_trace_of_stateExtends hrun_ext hw
                  · exact Or.inl h3
                · exact Or.inr (mem_trace_of_stateExtends hstep_ext h2)
        intro hmem
        refine LT (g t)
          ⟨s.modulesStack ++ [t], s.dist, s.trace, s.visits ++ [(t, d)]⟩
          ?_ (fun y hy => Or.inl hy) u p hmem
        intro u2 p2 h2
        have h3 : (u2, p2) ∈ s.visits ++ [(t, d)] := h2
        rcases List.mem_append.mp h3 with h4 | h4
        · exact Or.inl h4
        · rw [List.mem_singleton, Prod.mk.injEq] at h4
          exact Or.inr (Or.inl h4)

theorem visit_propagation (g : Nat → List Nat) :
    ∀ (fuel t d : Nat) (s : DistStateV) (u p : Nat),
      (u, p) ∈ (calculateDistanceV g fuel t d s).visits →
        (u, p) ∈ s.visits ∨
          ∀ y ∈ g u, p + 1 < d + fuel →
            y ∈ (calculateDistanceV g fuel t d s).modulesStack := by
  intro fuel
  induction fuel with
  | zero => intro t d s u p h; exact Or.inl h
  | succ fuel ih =>
      intro t d s u p
      rw [calculateDistanceV]
      by_cases hc : s.modulesStack.contains t = true
      · rw [if_pos hc]
        exact fun h => Or.inl h
      · rw [if_neg hc]
        cases fuel with
        | zero =>
            intro hmem
            have hsame : ∀ (l : List Nat) (acc : DistStateV),
                (l.foldl (fun acc2 imp =>
                  calculateDistanceV g 0 imp (d + 1)
                    (assignDistanceV acc2 imp d)) acc).visits = acc.visits := by
              intro l
              induction l with
              | nil => intro acc; rfl
              | cons a l2 ihl => intro acc; rw [List.foldl_cons, ihl]; rfl
            have hmem1 : (u, p) ∈ ((g t).foldl (fun acc2 imp =>
                calculateDistanceV g 0 imp (d + 1) (assignDistanceV acc2 imp d))
                ⟨s.modulesStack ++ [t], s.dist, s.trace,
                  s.visits ++ [(t, d)]⟩).visits := hmem
            rw [hsame] at hmem1
            have hmem2 : (u, p) ∈ s.visits ++ [(t, d)] := hmem1
            rcases List.mem_append.mp hmem2 with h1 | h1
            · exact Or.inl h1
            · rw [List.mem_singleton, Prod.mk.injEq] at h1
              obtain ⟨rfl, rfl⟩ := h1
              exact Or.inr fun y hy hb => absurd hb (by omega)
        | succ F2 =>
            have LP : ∀ (l : List Nat) (acc : DistStateV),
                (∀ a ∈ l, a ∈ g t) →
                (∀ u2 p2, (u2, p2) ∈ acc.visits → (u2, p2) ∈ s.visits ∨
                  (u2 = t ∧ p2 = d) ∨
                  ∀ y ∈ g u2, p2 + 1 < d + (F2 + 1 + 1) →
                    y ∈ acc.modulesStack) →
                (∀ y ∈ g t, y ∈ l ∨ y ∈ acc.modulesStack) →
                ∀ u2 p2,
                  (u2, p2) ∈ (l.foldl (fun acc2 imp =>
                    calculateDistanceV g (F2 + 1) imp (d + 1)
                      (assignDistanceV acc2 imp d)) acc).visits →
                  (u2, p2) ∈ s.visits ∨
                    ∀ y ∈ g u2, p2 + 1 < d + (F2 + 1 + 1) →
                      y ∈ (l.foldl (fun acc2 imp =>
                        calculateDistanceV g (F2 + 1) imp (d + 1)
                          (assignDistanceV acc2 imp d)) acc).modulesStack := by
              intro l
              induction l with
              | nil =>
                  intro acc _ hacc hpend u2 p2 hmem
                  rcases hacc u2 p2 hmem with h1 | ⟨rfl, rfl⟩ | h1
                  · exact Or.inl h1
                  · refine Or.inr fun y hy _ => ?_
                    rcases hpend y hy with h2 | h2
                    · exact absurd h2 (List.not_mem_nil y)
                    · exact h2
                  · exact Or.inr h1
              | cons a l2 ihl =>
                  intro acc hsub hacc hpend u2 p2 hmem
                  rw [List.foldl_cons] at hmem ⊢
                  have hrun_ext : StateExtends (assignDistanceV acc a d)
                      (calculateDistanceV g (F2 + 1) a (d + 1)
                        (assignDistanceV acc a d)) :=
                    stateExtends_calculateDistanceV g (F2 + 1) a (d + 1) _
                  have hstep_ext : StateExtends acc
                      (calculateDistanceV g (F2 + 1) a (d + 1)
                        (assignDistanceV acc a d)) :=
                    stateExtends_trans (stateExtends_assign acc a d) hrun_ext
                  refine ihl _ (fun b hb => hsub b (List.mem_cons_of_mem a hb))
                    ?_ ?_ u2 p2 hmem
                  · intro u3 p3 h3
                    rcases ih a (d + 1) (assignDistanceV acc a d) u3 p3 h3 with
                      h4 | h4
                    · have h5 : (u3, p3) ∈ acc.visits := h4
                      rcases hacc u3 p3 h5 with h6 | h6 | h6
                      · exact Or.inl h6
                      · exact Or.inr (Or.inl h6)
                      · refine Or.inr (Or.inr fun y hy hb => ?_)
                        exact mem_stack_of_stateExtends hstep_ext (h6 y hy hb)
                    · refine Or.inr (Or.inr fun y hy hb => ?_)
                      exact h4 y hy (by omega)
                  · intro y hy
                    rcases hpend y hy with h2 | h2
                    · rcases List.mem_cons.mp h2 with rfl | h3
                      · exact Or.inr
                          (self_mem_stack_calculateDistanceV g F2 _ (d + 1) _)
                      · exact Or.inl h3
                    · exact Or.inr (mem_stack_of_stateExtends hstep_ext h2)
            intro hmem
            refine LP (g t)
              ⟨s.modulesStack ++ [t], s.dist, s.trace, s.visits ++ [(t, d)]⟩
              (fun a ha => ha) ?_ (fun y hy => Or.inl hy) u p hmem
            intro u2 p2 h2
            have h3 : (u2, p2) ∈ s.visits ++ [(t, d)] := h2
            rcases List.mem_append.mp h3 with h4 | h4
            · exact Or.inl h4
            · rw [List.mem_singleton, Prod.mk.injEq] at h4
              exact Or.inr (Or.inl h4)

theorem nodup_fst_eq : ∀ {l : List (Nat × Nat)},
    (l.map Prod.fst).Nodup → ∀ {a b c : Nat}, (a, b) ∈ l → (a, c) ∈ l →
      b = c := by
  intro l
  induction l with
  | nil => intro _ a b c h1 _; exact absurd h1 (List.not_mem_nil _)
  | cons e rest ih =>
      intro h a b c h1 h2
      rw [List.map_cons, List.nodup_cons] at h
      rcases List.mem_cons.mp h1 with he1 | h1r
      · rcases List.mem_cons.mp h2 with he2 | h2r
        · rw [← he1, Prod.mk.injEq] at he2
          exact he2.2.symm
        · exfalso
          apply h.1
          rw [← he1]
          exact List.mem_map.mpr ⟨(a, c), h2r, rfl⟩
      · rcases List.mem_cons.mp h2 with he2 | h2r
        · exfalso
          apply h.1
          rw [← he2]
          exact List.mem_map.mpr ⟨(a, b), h1r, rfl⟩
        · exact ih h.2 h1r h2r

theorem lastWrite_eq_of_all (tr : List (Nat × Nat)) (x v : Nat)
    (hmem : (x, v) ∈ tr) (hall : ∀ w, (x, w) ∈ tr → w = v) :
    lastWrite tr x = some v := by
  unfold lastWrite
  have hvmem : v ∈ tr.filterMap
      (fun p => if p.1 = x then some p.2 else none) := by
    rw [List.mem_filterMap]
    exact ⟨(x, v), hmem, by simp⟩
  have hallf : ∀ w ∈ tr.filterMap
      (fun p => if p.1 = x then some p.2 else none), w = v := by
    intro w hw
    rw [List.mem_filterMap] at hw
    obtain ⟨⟨p1, p2⟩, hp, he⟩ := hw
    dsimp only at he
    by_cases h1 : p1 = x
    · rw [if_pos h1] at he
      injection he with he2
      subst he2
      rw [h1] at hp
      exact hall p2 hp
    · rw [if_neg h1] at he
      exact Option.noConfusion he
  have hne : tr.filterMap (fun p => if p.1 = x then some p.2 else none) ≠ [] := by
    intro h0
    rw [h0] at hvmem
    exact List.not_mem_nil v hvmem
  have hgen : ∀ (l : List Nat), l ≠ [] → (∀ w ∈ l, w = v) →
      l.getLast? = some v := by
    intro l
    induction l with
    | nil => intro h0 _; exact absurd rfl h0
    | cons a l2 ih2 =>
        intro _ hallw
        cases l2 with
        | nil =>
            rw [hallw a (List.mem_singleton.mpr rfl)]
            rfl
        | cons b l3 =>
            rw [List.getLast?_cons_cons]
            exact ih2 (by simp) (fun w hw => hallw w (List.mem_cons_of_mem a hw))
  exact hgen _ hne hallf

theorem mem_containerImports_exists (c : NestContainer) (u b : Nat)
    (h : b ∈ containerImports c u) :
    ∃ e ∈ c.modules, e.token = u ∧ b ∈ e.imports := by
  unfold containerImports at h
  cases hf : c.modules.find? (fun m => m.token == u) with
  | none =>
      rw [hf] at h
      exact absurd h (List.not_mem_nil b)
  | some e =>
      rw [hf] at h
      refine ⟨e, List.mem_of_find?_eq_some hf, ?_, h⟩
      have hpe := List.find?_some hf
      exact eq_of_beq hpe

theorem chain_distances (g : Nat → List Nat) (F r : Nat) :
    ∀ (ms : List Nat) (prev p : Nat),
      (prev, p) ∈ (calculateDistanceV g F r 1 emptyDistStateV).visits →
      List.Chain' (fun a b => b ∈ g a ∧ ∀ u, b ∈ g u → u = a) (prev :: ms) →
      (∀ x ∈ ms, x ≠ r) →
      p + ms.length ≤ F →
      ∀ i x, ms[i]? = some x →
        (calculateDistanceV g F r 1 emptyDistStateV).dist x = some (p + i) := by
  have hgood : GoodState (calculateDistanceV g F r 1 emptyDistStateV) :=
    goodState_calculateDistanceV g F r 1 emptyDistStateV ⟨rfl, List.nodup_nil⟩
  have hdc : ∀ y, (calculateDistanceV g F r 1 emptyDistStateV).dist y =
      lastWrite (calculateDistanceV g F r 1 emptyDistStateV).trace y := by
    intro y
    have h := distConsistent_calculateDistance g F r 1 emptyDistState
      (fun x => rfl)
    have h2 : DistConsistent
        ((calculateDistanceV g F r 1 emptyDistStateV).forget) := by
      rw [forget_calculateDistanceV]
      exact h
    exact h2 y
  intro ms
  induction ms with
  | nil =>
      intro prev p _ _ _ _ i x hx
      exact Option.noConfusion hx
  | cons m rest ih =>
      intro prev p hvis hchain hnr hlen
      rw [List.chain'_cons] at hchain
      obtain ⟨⟨hm, huniq⟩, hchain2⟩ := hchain
      have hwall : ∀ w,
          (m, w) ∈ (calculateDistanceV g F r 1 emptyDistStateV).trace →
            w = p := by
        intro w hw
        rcases write_provenance g F r 1 emptyDistStateV m w hw with
          h | ⟨u, hu, hgu⟩
        · exact absurd h (List.not_mem_nil _)
        · have hup : u = prev := huniq u hgu
          subst hup
          exact nodup_fst_eq hgood.2 hu hvis
      have hmw : (m, p) ∈ (calculateDistanceV g F r 1 emptyDistStateV).trace := by
        rcases visit_writes g F r 1 emptyDistStateV prev p hvis with h | h
        · exact absurd h (List.not_mem_nil _)
        · exact h m hm
      have hdm : (calculateDistanceV g F r 1 emptyDistStateV).dist m = some p := by
        rw [hdc m]
        exact lastWrite_eq_of_all _ m p hmw hwall
      have hnext : (m, p + 1) ∈
          (calculateDistanceV g F r 1 emptyDistStateV).visits := by
        rcases visit_propagation g F r 1 emptyDistStateV prev p hvis with h | h
        · exact absurd h (List.not_mem_nil _)
        · have hstk : m ∈
              (calculateDistanceV g F r 1 emptyDistStateV).modulesStack :=
            h m hm (by simp only [List.length_cons] at hlen; omega)
          have hmm : m ∈
              ((calculateDistanceV g F r 1 emptyDistStateV).visits.map
                Prod.fst) := by
            rw [← hgood.1]
            exact hstk
          obtain ⟨e, he, hefst⟩ := List.mem_map.mp hmm
          obtain ⟨e1, e2⟩ := e
          have h1m : e1 = m := hefst
          subst h1m
          rcases visit_provenance g F r 1 emptyDistStateV (e1, e2) he with
            h1 | h1 | ⟨u, q, hu, hgu, hq⟩
          · exact absurd h1 (List.not_mem_nil _)
          · rw [Prod.mk.injEq] at h1
            exact absurd h1.1 (hnr e1 (List.mem_cons_self e1 rest))
          · have hup : u = prev := huniq u hgu
            subst hup
            have hqp : q = p := nodup_fst_eq hgood.2 hu hvis
            have hq2 : e2 = q + 1 := hq
            have he2 : e2 = p + 1 := by rw [hq2, hqp]
            rw [← he2]
            exact he
      intro i x hx
      cases i with
      | zero =>
          rw [List.getElem?_cons_zero] at hx
          injection hx with hx2
          subst hx2
          exact hdm
      | succ i =>
          rw [List.getElem?_cons_succ] at hx
          have hres := ih m (p + 1) hnext hchain2
            (fun y hy => hnr y (List.mem_cons_of_mem m hy))
            (by simp only [List.length_cons] at hlen; omega) i x hx
          rw [show p + (i + 1) = p + 1 + i from by omega]
          exact hres

/-- C7 (amended): calculateModulesDistance skips the internal core module
occupying the first registry position and starts the walk at the next
registered module (the root) with distance 1.  In an arbitrary resolved
graph of imports, every module that is imported only along a single
chain of imports from the root keeps the distance of its chain position: if
root :: ms is an import chain in which each member of ms is imported at
exactly its one chain position and differs from the root, then the i-th
member of ms ends with distance 1 + i.  In particular a direct import of
the root that no other module imports has distance 1.  Only modules
imported at several positions can deviate (see the counterexample). -/
theorem c7_unique_chain_distance (c : NestContainer)
    (core root : ModuleEntity) (rest : List ModuleEntity) (ms : List Nat)
    (hmods : c.modules = core :: root :: rest)
    (hchain : List.Chain' (fun a b => b ∈ containerImports c a ∧
      ∀ u, b ∈ containerImports c u → u = a) (root.token :: ms))
    (hnotroot : ∀ x ∈ ms, x ≠ root.token)
    (hlen : ms.length ≤ c.modules.length) :
    ∀ i x, ms[i]? = some x →
      (calculateModulesDistance c).dist x = some (1 + i) := by
  intro i x hx
  have hcm : calculateModulesDistance c =
      calculateDistance (containerImports c) (c.modules.length + 1)
        root.token 1 emptyDistState := by
    rw [calculateModulesDistance, hmods]
  have hforget : calculateDistance (containerImports c)
      (c.modules.length + 1) root.token 1 emptyDistState =
      (calculateDistanceV (containerImports c) (c.modules.length + 1)
        root.token 1 emptyDistStateV).forget := by
    rw [forget_calculateDistanceV]
    rfl
  have htop : (root.token, 1) ∈
      (calculateDistanceV (containerImports c) (c.modules.length + 1)
        root.token 1 emptyDistStateV).visits :=
    top_visit_mem (containerImports c) c.modules.length root.token 1
      emptyDistStateV rfl
  have hres := chain_distances (containerImports c) (c.modules.length + 1)
    root.token ms root.token 1 htop hchain hnotroot (by omega) i x hx
  rw [hcm, hforget]
  exact hres

/-- Witness for the amended C7 on a non-tree import graph: in
c7ChainExampleContainer module 3 is imported at two positions (by the root
1 and by module 2), while 2 and 4 are each imported at exactly one
position, forming the unique chain 1, 2, 4; the direct import 2 gets
distance 1 and the chain end 4 gets distance 2. -/
theorem c7_unique_chain_distance_witness :
    (calculateModulesDistance c7ChainExampleContainer).dist 2 = some 1 ∧
    (calculateModulesDistance c7ChainExampleContainer).dist 4 = some 2 := by
  have huniq2 : ∀ u, 2 ∈ containerImports c7ChainExampleContainer u →
      u = 1 := by
    intro u hu
    obtain ⟨e, he, htok, hb⟩ := mem_containerImports_exists _ u 2 hu
    have he2 : e ∈
        [(⟨0, internalCoreModuleDecl, [], [], [], []⟩ : ModuleEntity),
         ⟨1, ModuleDecl.mk 1 false false false [] [] [], [2, 3], [], [], []⟩,
         ⟨2, ModuleDecl.mk 2 false false false [] [] [], [3, 4], [], [], []⟩,
         ⟨3, ModuleDecl.mk 3 false false false [] [] [], [], [], [], []⟩,
         ⟨4, ModuleDecl.mk 4 false false false [] [] [], [], [], [], []⟩] := he
    simp only [List.mem_cons, List.not_mem_nil, or_false] at he2
    rcases he2 with rfl | rfl | rfl | rfl | rfl
    · exact absurd (show (2 : Nat) ∈ ([] : List Nat) from hb) (by decide)
    · exact (show (1 : Nat) = u from htok).symm
    · exact absurd (show (2 : Nat) ∈ [3, 4] from hb) (by decide)
    · exact absurd (show (2 : Nat) ∈ ([] : List Nat) from hb) (by decide)
    · exact absurd (show (2 : Nat) ∈ ([] : List Nat) from hb) (by decide)
  have huniq4 : ∀ u, 4 ∈ containerImports c7ChainExampleContainer u →
      u = 2 := by
    intro u hu
    obtain ⟨e, he, htok, hb⟩ := mem_containerImports_exists _ u 4 hu
    have he2 : e ∈
        [(⟨0, internalCoreModuleDecl, [], [], [], []⟩ : ModuleEntity),
         ⟨1, ModuleDecl.mk 1 false false false [] [] [], [2, 3], [], [], []⟩,
         ⟨2, ModuleDecl.mk 2 false false false [] [] [], [3, 4], [], [], []⟩,
         ⟨3, ModuleDecl.mk 3 false false false [] [] [], [], [], [], []⟩,
         ⟨4, ModuleDecl.mk 4 false false false [] [] [], [], [], [], []⟩] := he
    simp only [List.mem_cons, List.not_mem_nil, or_false] at he2
    rcases he2 with rfl | rfl | rfl | rfl | rfl
    · exact absurd (show (4 : Nat) ∈ ([] : List Nat) from hb) (by decide)
    · exact absurd (show (4 : Nat) ∈ [2, 3] from hb) (by decide)
    · exact (show (2 : Nat) = u from htok).symm
    · exact absurd (show (4 : Nat) ∈ ([] : List Nat) from hb) (by decide)
    · exact absurd (show (4 : Nat) ∈ ([] : List Nat) from hb) (by decide)
  have hchain : List.Chain' (fun a b =>
      b ∈ containerImports c7ChainExampleContainer a ∧
      ∀ u, b ∈ containerImports c7ChainExampleContainer u → u = a)
      [1, 2, 4] := by
    refine List.chain'_cons.mpr ⟨⟨by decide, huniq2⟩, ?_⟩
    refine List.chain'_cons.mpr ⟨⟨by decide, huniq4⟩, ?_⟩
    exact List.chain'_singleton 4
  have hmain := c7_unique_chain_distance c7ChainExampleContainer
    ⟨0, internalCoreModuleDecl, [], [], [], []⟩
    ⟨1, ModuleDecl.mk 1 false false false [] [] [], [2, 3], [], [], []⟩
    [⟨2, ModuleDecl.mk 2 false false false [] [] [], [3, 4], [], [], []⟩,
     ⟨3, ModuleDecl.mk 3 false false false [] [] [], [], [], [], []⟩,
     ⟨4, ModuleDecl.mk 4 false false false [] [] [], [], [], [], []⟩]
    [2, 4] rfl hchain (by decide) (by decide)
  exact ⟨hmain 0 2 rfl, hmain 1 4 rfl⟩

end NestCore
